import Mathlib

/-!
# Verification of the faast-portfolio multi-swap orchestration core

Shallow embedding of the swap/swundle orchestration code:
* `Bitcore` — the UTXO selector and payment-transaction builder
  (`src/services/Bitcore.ts`, `Bitcore.buildPaymentTx`).
* `SwapStatus` — the pure status-derivation function (`getSwapStatus`).
* `Eth` — the account-model (Ethereum) transaction builder
  (`EthereumWallet._createTransaction`) and the sequential nonce-threading
  loop of `createSwundleTxs`.
* `Swundle` — the swundle orchestrator actions (`checkSufficientBalances`,
  `createSwundleTxs`, `initSwundle`/`signSwundle`/`sendSwundle`).
* `Restore` — `restoreSwundles` and the V1/V2 payload validators.

Monetary amounts (BigNumber.js values and satoshi amounts) are embedded as
`ℤ` in smallest-denomination units, the units the spec assigns to
`sendUnits`; timestamps and nonces are `ℕ`.  External collaborators
(network oracles, signers, the exchange API) are passed in as explicit
parameters, matching the spec's black-box treatment of them.
-/

/-- JS truthiness of an optional string field: `undefined`/`null` and the
empty string are falsy, every other string is truthy. -/
def truthyStr : Option String → Bool
  | none => false
  | some s => s ≠ ""

/-- JS `String.prototype.toLowerCase`, character by character. -/
def jsToLower (s : String) : String := ⟨s.data.map Char.toLower⟩

/-- JS `a || b` for an optional numeric field where `0` is falsy. -/
def jsOrNat (v : Option Nat) (dflt : Nat) : Nat :=
  match v with
  | some n => if n = 0 then dflt else n
  | none => dflt

namespace Bitcore

/-- A UTXO as consumed by `buildPaymentTx` (value and confirmations are what
the algorithm inspects; hash/index/path ride along into the result). -/
structure UtxoInfo where
  value : Int
  confirmations : Int
  transactionHash : String
  index : Nat
  addressPath : List Nat
  deriving DecidableEq

/-- A transaction output `{address, amount}` (amount in satoshi). -/
structure TxOutput where
  address : String
  amount : Int
  deriving DecidableEq

/-- The slice of a discovered account that `buildPaymentTx` reads. -/
structure AccountInfo where
  utxos : List UtxoInfo
  changeIndex : Nat
  changeAddresses : List String
  deriving DecidableEq

/-- Result of `buildPaymentTx`.  `outputs` is the (possibly fee-adjusted)
desired-output list that the source returns; `builderOutputs` is the list of
outputs added to the `TransactionBuilder` (the payload serialized into
`outputScript`), which additionally holds the change output when one is
emitted. -/
structure PaymentTx where
  inputUtxos : List UtxoInfo
  outputs : List TxOutput
  builderOutputs : List TxOutput
  fee : Int
  change : Int
  changePath : Option (List Nat)
  changeAddress : Option String
  isSegwit : Bool
  deriving DecidableEq

/-- The errors `buildPaymentTx` can throw.  The source formats messages with
JS float formatting (`outputTotal * 1e-8`); we keep the raising data instead
of the display string. -/
inductive TxBuildError where
  /-- JS `TypeError` from `outputs[0].amount` when the desired-output list is
  empty in the send-entire-balance branch. -/
  | emptyOutputs
  /-- `'First output minus fee is below dust threshold'` -/
  | dustThresholdError
  /-- `'You do not have enough UTXOs to send ... with ... sat/byte fee'` -/
  | insufficientUtxos (outputTotal : Int) (assetSymbol : String) (feeRate : Int)
  deriving DecidableEq

/-- Insert `x` into an already-sorted list, moving past only strictly
smaller elements so that `x` lands before elements that compare equal. -/
def insertSorted {α : Type} (le : α → α → Bool) (x : α) : List α → List α
  | [] => [x]
  | y :: ys => if le y x && !le x y then y :: insertSorted le x ys else x :: y :: ys

/-- Stable sort by a `≤` comparator (models JS stable `Array.sort`):
elements are inserted right to left, each landing before its equals, so the
original relative order of compare-equal elements is preserved. -/
def sortStable {α : Type} (le : α → α → Bool) : List α → List α
  | [] => []
  | x :: xs => insertSorted le x (sortStable le xs)

/-- `sortUtxos`: mature UTXOs (≥ 6 confirmations) ascending by value, then
immature UTXOs descending by confirmations. -/
def sortUtxos (utxoList : List UtxoInfo) : List UtxoInfo :=
  let matureList := utxoList.filter (fun u => u.confirmations ≥ 6)
  let immatureList := utxoList.filter (fun u => !(u.confirmations ≥ 6))
  sortStable (fun a b => a.value ≤ b.value) matureList
    ++ sortStable (fun a b => b.confirmations ≤ a.confirmations) immatureList

/-- State of the input-selection loop in `buildPaymentTx`: the inputs chosen
so far, their total value, and the fee / amount-with-fee computed on the last
iteration. -/
structure SelectState where
  inputUtxos : List UtxoInfo
  inputTotal : Int
  fee : Int
  amountWithFee : Int
  deriving DecidableEq

/-- The `for (const utxo of sortedUtxos)` loop of `buildPaymentTx`: on each
iteration recompute the fee for `inputUtxos.length + 1` inputs, add the utxo,
and stop as soon as `inputTotal >= amountWithFee`.  `est n` is
`estimateTxFee(feeRate, n, outputCount, isSegwit)`. -/
def selectInputs (est : Nat → Int) (outputTotal : Int) :
    List UtxoInfo → SelectState → SelectState
  | [], st => st
  | utxo :: rest, st =>
    let fee := est (st.inputUtxos.length + 1)
    let amountWithFee := outputTotal + fee
    let inputTotal := st.inputTotal + utxo.value
    let st' : SelectState := ⟨st.inputUtxos ++ [utxo], inputTotal, fee, amountWithFee⟩
    if inputTotal ≥ amountWithFee then st' else selectInputs est outputTotal rest st'

/-- The change-handling tail of `buildPaymentTx` (source lines 223–244):
compute `change = inputTotal - amountWithFee`; when it exceeds the dust
threshold emit a change output, otherwise fold it into the fee and report
change address/path as absent. -/
def finishTx (changeAddress : Option String) (changeIndex : Nat) (dustThreshold : Int)
    (inputUtxos : List UtxoInfo) (outputs : List TxOutput)
    (fee amountWithFee inputTotal : Int) (isSegwit : Bool) : PaymentTx :=
  let change := inputTotal - amountWithFee
  if change > dustThreshold then
    { inputUtxos := inputUtxos, outputs := outputs,
      builderOutputs := outputs ++ [⟨changeAddress.getD "", change⟩],
      fee := fee, change := change,
      changePath := some [1, changeIndex], changeAddress := changeAddress,
      isSegwit := isSegwit }
  else
    { inputUtxos := inputUtxos, outputs := outputs, builderOutputs := outputs,
      fee := fee + change, change := 0,
      changePath := none, changeAddress := none,
      isSegwit := isSegwit }

/-- Total value of a list of UTXOs. -/
def utxosTotal (utxos : List UtxoInfo) : Int := (utxos.map (·.value)).sum

/-- Total amount of a list of outputs (`outputs.reduce((total, {amount}) =>
total + amount, 0)`). -/
def outputsTotal (outputs : List TxOutput) : Int := (outputs.map (·.amount)).sum

/-- The full input-selection phase of `buildPaymentTx`: run the selection
loop over the sorted UTXOs, with one extra output slot reserved for change
(`outputCount = desiredOutputs.length + 1`). -/
def selection (estimateTxFee : Int → Nat → Nat → Bool → Int) (account : AccountInfo)
    (desiredOutputs : List TxOutput) (feeRate : Int) (isSegwit : Bool) : SelectState :=
  selectInputs (fun n => estimateTxFee feeRate n (desiredOutputs.length + 1) isSegwit)
    (outputsTotal desiredOutputs) (sortUtxos account.utxos)
    ⟨[], 0, 0, outputsTotal desiredOutputs⟩

/-- `Bitcore.buildPaymentTx`.  `estimateTxFee` (from `Utilities/bitcoin`,
outside this repository slice) is passed in as a parameter
`feeRate → inputCount → outputCount → isSegwit → fee`. -/
def buildPaymentTx (estimateTxFee : Int → Nat → Nat → Bool → Int) (assetSymbol : String)
    (account : AccountInfo) (desiredOutputs : List TxOutput) (feeRate : Int)
    (isSegwit : Bool := true) (dustThreshold : Int := 546) :
    Except TxBuildError PaymentTx :=
  let changeAddress := account.changeAddresses[account.changeIndex]?
  let outputs := desiredOutputs
  let outputTotal := outputsTotal outputs
  let st := selection estimateTxFee account outputs feeRate isSegwit
  if st.amountWithFee > st.inputTotal then
    if outputTotal = st.inputTotal then
      -- Attempting to send the entire balance: subtract the fee from the
      -- first output (JS throws a TypeError when there is no first output).
      match outputs with
      | [] => .error .emptyOutputs
      | o :: rest =>
        let adjusted := o.amount - st.fee
        if adjusted ≤ dustThreshold then
          .error .dustThresholdError
        else
          .ok (finishTx changeAddress account.changeIndex dustThreshold
            st.inputUtxos (⟨o.address, adjusted⟩ :: rest) st.fee outputTotal
            st.inputTotal isSegwit)
    else
      .error (.insufficientUtxos outputTotal assetSymbol feeRate)
  else
    .ok (finishTx changeAddress account.changeIndex dustThreshold
      st.inputUtxos outputs st.fee st.amountWithFee st.inputTotal isSegwit)

theorem finishTx_inputUtxos (cA : Option String) (cI : Nat) (dust : Int)
    (iU : List UtxoInfo) (outs : List TxOutput) (fee awf inT : Int) (sg : Bool) :
    (finishTx cA cI dust iU outs fee awf inT sg).inputUtxos = iU := by
  unfold finishTx
  dsimp only
  split <;> rfl

theorem finishTx_outputs (cA : Option String) (cI : Nat) (dust : Int)
    (iU : List UtxoInfo) (outs : List TxOutput) (fee awf inT : Int) (sg : Bool) :
    (finishTx cA cI dust iU outs fee awf inT sg).outputs = outs := by
  unfold finishTx
  dsimp only
  split <;> rfl

theorem finishTx_spend_le (cA : Option String) (cI : Nat) (dust : Int)
    (iU : List UtxoInfo) (outs : List TxOutput) (fee awf inT : Int) (sg : Bool)
    (h1 : awf = outputsTotal outs + fee) (h2 : awf ≤ inT) :
    outputsTotal (finishTx cA cI dust iU outs fee awf inT sg).outputs
      + (finishTx cA cI dust iU outs fee awf inT sg).fee ≤ inT := by
  unfold finishTx
  dsimp only
  split
  · simpa [← h1] using h2
  · simp only
    omega

theorem selectInputs_inputTotal (est : Nat → Int) (outputTotal : Int) :
    ∀ (utxos : List UtxoInfo) (st : SelectState),
      st.inputTotal = utxosTotal st.inputUtxos →
      (selectInputs est outputTotal utxos st).inputTotal
        = utxosTotal (selectInputs est outputTotal utxos st).inputUtxos := by
  intro utxos
  induction utxos with
  | nil => intro st h; simpa [selectInputs] using h
  | cons u rest ih =>
    intro st h
    simp only [selectInputs]
    split
    · simp [utxosTotal, h]
    · exact ih _ (by simp [utxosTotal, h])

theorem selectInputs_amountWithFee (est : Nat → Int) (outputTotal : Int) :
    ∀ (utxos : List UtxoInfo) (st : SelectState),
      st.amountWithFee = outputTotal + st.fee →
      (selectInputs est outputTotal utxos st).amountWithFee
        = outputTotal + (selectInputs est outputTotal utxos st).fee := by
  intro utxos
  induction utxos with
  | nil => intro st h; simpa [selectInputs] using h
  | cons u rest ih =>
    intro st h
    simp only [selectInputs]
    split
    · rfl
    · exact ih _ rfl

/-- C2.  For every UTXO set, desired output list and fee rate (and any fee
estimator), `buildPaymentTx` either throws, or returns a result whose
selected inputs cover the returned outputs plus the returned fee. -/
theorem buildPaymentTx_no_overspend
    (est : Int → Nat → Nat → Bool → Int) (sym : String) (account : AccountInfo)
    (outs : List TxOutput) (feeRate : Int) (sg : Bool) (dust : Int) (r : PaymentTx)
    (h : buildPaymentTx est sym account outs feeRate sg dust = .ok r) :
    outputsTotal r.outputs + r.fee ≤ utxosTotal r.inputUtxos := by
  unfold buildPaymentTx at h
  dsimp only at h
  have hTot : (selection est account outs feeRate sg).inputTotal
      = utxosTotal (selection est account outs feeRate sg).inputUtxos :=
    selectInputs_inputTotal _ _ _ _ (by simp [utxosTotal])
  have hAwf : (selection est account outs feeRate sg).amountWithFee
      = outputsTotal outs + (selection est account outs feeRate sg).fee :=
    selectInputs_amountWithFee _ _ _ _ (by simp)
  set st := selection est account outs feeRate sg with hstDef
  split at h
  · -- insufficient input value
    split at h
    · -- sending the entire balance
      rename_i hins heq
      split at h
      · exact absurd h (by simp)
      · rename_i o rest
        split at h
        · exact absurd h (by simp)
        · rename_i hdust
          rw [Except.ok.injEq] at h
          subst h
          rw [finishTx_inputUtxos, ← hTot]
          refine finishTx_spend_le _ _ _ _ _ _ _ _ _ ?_ ?_
          · simp only [outputsTotal, List.map_cons, List.sum_cons]
            ring
          · omega
    · exact absurd h (by simp)
  · -- sufficient input value
    rename_i hsuff
    rw [Except.ok.injEq] at h
    subst h
    rw [finishTx_inputUtxos, ← hTot]
    exact finishTx_spend_le _ _ _ _ _ _ _ _ _ hAwf (by omega)

theorem buildPaymentTx_ok_shape
    (est : Int → Nat → Nat → Bool → Int) (sym : String) (account : AccountInfo)
    (outs : List TxOutput) (feeRate : Int) (sg : Bool) (dust : Int) (r : PaymentTx)
    (h : buildPaymentTx est sym account outs feeRate sg dust = .ok r) :
    ∃ outs2,
      r = finishTx account.changeAddresses[account.changeIndex]? account.changeIndex dust
        (selection est account outs feeRate sg).inputUtxos outs2
        (selection est account outs feeRate sg).fee
        (outputsTotal outs2 + (selection est account outs feeRate sg).fee)
        (selection est account outs feeRate sg).inputTotal sg := by
  unfold buildPaymentTx at h
  dsimp only at h
  have hAwf : (selection est account outs feeRate sg).amountWithFee
      = outputsTotal outs + (selection est account outs feeRate sg).fee :=
    selectInputs_amountWithFee _ _ _ _ (by simp)
  split at h
  · split at h
    · rename_i hins heq
      split at h
      · exact absurd h (by simp)
      · rename_i o rest
        split at h
        · exact absurd h (by simp)
        · rename_i hdust
          rw [Except.ok.injEq] at h
          refine ⟨⟨o.address,
            o.amount - (selection est account (o :: rest) feeRate sg).fee⟩ :: rest, ?_⟩
          have harith : outputsTotal
              (⟨o.address, o.amount - (selection est account (o :: rest) feeRate sg).fee⟩
                :: rest)
              + (selection est account (o :: rest) feeRate sg).fee
              = outputsTotal (o :: rest) := by
            simp only [outputsTotal, List.map_cons, List.sum_cons]
            ring
          rw [harith, ← h]
    · exact absurd h (by simp)
  · rename_i hsuff
    rw [Except.ok.injEq] at h
    exact ⟨outs, by rw [← h, hAwf]⟩

theorem finishTx_change_cases (cA : Option String) (cI : Nat) (dust : Int)
    (iU : List UtxoInfo) (outs : List TxOutput) (fee awf inT : Int) (sg : Bool) :
    (inT - awf > dust →
      finishTx cA cI dust iU outs fee awf inT sg
        = { inputUtxos := iU, outputs := outs,
            builderOutputs := outs ++ [⟨cA.getD "", inT - awf⟩],
            fee := fee, change := inT - awf, changePath := some [1, cI],
            changeAddress := cA, isSegwit := sg })
    ∧ (inT - awf ≤ dust →
      finishTx cA cI dust iU outs fee awf inT sg
        = { inputUtxos := iU, outputs := outs, builderOutputs := outs,
            fee := fee + (inT - awf), change := 0, changePath := none,
            changeAddress := none, isSegwit := sg }) := by
  constructor
  · intro hgt
    unfold finishTx
    dsimp only
    rw [if_pos hgt]
  · intro hle
    unfold finishTx
    dsimp only
    rw [if_neg (by omega)]

/-- C3.  When the selection loop exhausts all UTXOs without covering
`outputTotal + fee`: if the output total equals the selected input total
(sending 100% of the inputs) and there is a first output, the fee is
subtracted from the first output, failing if and only if the adjusted first
output is at or below the dust threshold; in every other insufficient case an
insufficient-funds error is thrown. -/
theorem buildPaymentTx_insufficient_cases
    (est : Int → Nat → Nat → Bool → Int) (sym : String) (account : AccountInfo)
    (outs : List TxOutput) (feeRate : Int) (sg : Bool) (dust : Int)
    (hins : (selection est account outs feeRate sg).amountWithFee
      > (selection est account outs feeRate sg).inputTotal) :
    (∀ o rest, outs = o :: rest →
      outputsTotal outs = (selection est account outs feeRate sg).inputTotal →
      ((buildPaymentTx est sym account outs feeRate sg dust = .error .dustThresholdError
          ↔ o.amount - (selection est account outs feeRate sg).fee ≤ dust)
        ∧ (o.amount - (selection est account outs feeRate sg).fee > dust →
          ∃ r, buildPaymentTx est sym account outs feeRate sg dust = .ok r
            ∧ r.outputs
              = ⟨o.address, o.amount - (selection est account outs feeRate sg).fee⟩ :: rest)))
    ∧ (outputsTotal outs ≠ (selection est account outs feeRate sg).inputTotal →
      buildPaymentTx est sym account outs feeRate sg dust
        = .error (.insufficientUtxos (outputsTotal outs) sym feeRate)) := by
  constructor
  · intro o rest houts heq
    subst houts
    have hbuild : buildPaymentTx est sym account (o :: rest) feeRate sg dust
        = if o.amount - (selection est account (o :: rest) feeRate sg).fee ≤ dust
          then .error .dustThresholdError
          else .ok (finishTx account.changeAddresses[account.changeIndex]?
            account.changeIndex dust
            (selection est account (o :: rest) feeRate sg).inputUtxos
            (⟨o.address, o.amount - (selection est account (o :: rest) feeRate sg).fee⟩
              :: rest)
            (selection est account (o :: rest) feeRate sg).fee
            (outputsTotal (o :: rest))
            (selection est account (o :: rest) feeRate sg).inputTotal sg) := by
      unfold buildPaymentTx
      dsimp only
      rw [if_pos hins, if_pos heq]
    constructor
    · rw [hbuild]
      by_cases hd : o.amount - (selection est account (o :: rest) feeRate sg).fee ≤ dust
      · rw [if_pos hd]
        exact ⟨fun _ => hd, fun _ => rfl⟩
      · rw [if_neg hd]
        exact ⟨fun hcontra => absurd hcontra (by simp), fun hcontra => absurd hcontra hd⟩
    · intro hgt
      rw [hbuild, if_neg (by omega)]
      exact ⟨_, rfl, by rw [finishTx_outputs]⟩
  · intro hne
    unfold buildPaymentTx
    dsimp only
    rw [if_pos hins, if_neg hne]

/-- C6.  For every successful `buildPaymentTx`, with `change` defined as
input total minus (output total plus selection fee): if `change` exceeds the
dust threshold, a change output of that amount to the change address at
`changeIndex` is emitted and the change address/path are reported; otherwise
no change output is emitted, the change is folded into the returned fee, and
the change address/path are absent.  A change output at or below the dust
threshold is never emitted. -/
theorem buildPaymentTx_change_policy
    (est : Int → Nat → Nat → Bool → Int) (sym : String) (account : AccountInfo)
    (outs : List TxOutput) (feeRate : Int) (sg : Bool) (dust : Int) (r : PaymentTx)
    (h : buildPaymentTx est sym account outs feeRate sg dust = .ok r) :
    ∀ c, c = utxosTotal r.inputUtxos
        - (outputsTotal r.outputs + (selection est account outs feeRate sg).fee) →
      (c > dust →
        r.change = c
        ∧ r.fee = (selection est account outs feeRate sg).fee
        ∧ r.changeAddress = account.changeAddresses[account.changeIndex]?
        ∧ r.changePath = some [1, account.changeIndex]
        ∧ r.builderOutputs
          = r.outputs ++ [⟨(account.changeAddresses[account.changeIndex]?).getD "", c⟩])
      ∧ (c ≤ dust →
        r.change = 0
        ∧ r.fee = (selection est account outs feeRate sg).fee + c
        ∧ r.changeAddress = none
        ∧ r.changePath = none
        ∧ r.builderOutputs = r.outputs) := by
  obtain ⟨outs2, hr⟩ := buildPaymentTx_ok_shape est sym account outs feeRate sg dust r h
  have hTot : (selection est account outs feeRate sg).inputTotal
      = utxosTotal (selection est account outs feeRate sg).inputUtxos :=
    selectInputs_inputTotal _ _ _ _ (by simp [utxosTotal])
  intro c hc
  have hcases := finishTx_change_cases account.changeAddresses[account.changeIndex]?
    account.changeIndex dust (selection est account outs feeRate sg).inputUtxos outs2
    (selection est account outs feeRate sg).fee
    (outputsTotal outs2 + (selection est account outs feeRate sg).fee)
    (selection est account outs feeRate sg).inputTotal sg
  have hcval : c = (selection est account outs feeRate sg).inputTotal
      - (outputsTotal outs2 + (selection est account outs feeRate sg).fee) := by
    rw [hc, hr, finishTx_inputUtxos, finishTx_outputs, ← hTot]
  constructor
  · intro hgt
    have hfin := hcases.1 (by omega)
    rw [hr, hfin]
    dsimp only
    rw [hcval]
    exact ⟨rfl, rfl, rfl, rfl, rfl⟩
  · intro hle
    have hfin := hcases.2 (by omega)
    rw [hr, hfin]
    dsimp only
    rw [hcval]
    exact ⟨rfl, rfl, rfl, rfl, rfl⟩

/-- A concrete fee estimator for witnesses (classic P2PKH size formula). -/
def witEst : Int → Nat → Nat → Bool → Int := fun feeRate nIn nOut _ =>
  feeRate * (nIn * 148 + nOut * 34 + 10)

/-- A concrete account for witnesses: one mature 100000-sat UTXO. -/
def witAccount : AccountInfo :=
  { utxos := [⟨100000, 10, "h1", 0, [0, 0]⟩], changeIndex := 0, changeAddresses := ["chg"] }

/-- The concrete result of `buildPaymentTx` on `witAccount` sending 50000
sat at 10 sat/byte. -/
def witResult : PaymentTx :=
  ⟨[⟨100000, 10, "h1", 0, [0, 0]⟩], [⟨"A", 50000⟩], [⟨"A", 50000⟩, ⟨"chg", 47740⟩],
    2260, 47740, some [1, 0], some "chg", false⟩

theorem buildPaymentTx_no_overspend_witness :
    buildPaymentTx witEst "BTC" witAccount [⟨"A", 50000⟩] 10 false 546 = .ok witResult
    ∧ outputsTotal witResult.outputs + witResult.fee ≤ utxosTotal witResult.inputUtxos :=
  ⟨rfl,
    buildPaymentTx_no_overspend witEst "BTC" witAccount [⟨"A", 50000⟩] 10 false 546
      witResult rfl⟩

theorem buildPaymentTx_insufficient_cases_witness :
    (selection witEst witAccount [⟨"A", 100000⟩] 10 false).amountWithFee
      > (selection witEst witAccount [⟨"A", 100000⟩] 10 false).inputTotal
    ∧ ∃ r, buildPaymentTx witEst "BTC" witAccount [⟨"A", 100000⟩] 10 false 546 = .ok r
      ∧ r.outputs
        = [⟨"A", 100000 - (selection witEst witAccount [⟨"A", 100000⟩] 10 false).fee⟩] :=
  ⟨by decide,
    ((buildPaymentTx_insufficient_cases witEst "BTC" witAccount [⟨"A", 100000⟩] 10 false 546
      (by decide)).1 ⟨"A", 100000⟩ [] rfl (by decide)).2 (by decide)⟩

theorem buildPaymentTx_change_policy_witness :
    witResult.change = 47740
    ∧ witResult.fee = (selection witEst witAccount [⟨"A", 50000⟩] 10 false).fee
    ∧ witResult.changeAddress = witAccount.changeAddresses[witAccount.changeIndex]?
    ∧ witResult.changePath = some [1, witAccount.changeIndex]
    ∧ witResult.builderOutputs = witResult.outputs
      ++ [⟨(witAccount.changeAddresses[witAccount.changeIndex]?).getD "", 47740⟩] :=
  (buildPaymentTx_change_policy witEst "BTC" witAccount [⟨"A", 50000⟩] 10 false 546
    witResult rfl 47740 (by decide)).1 (by decide)

end Bitcore

namespace SwapStatus

/-- The slice of an exchange order that `getSwapStatus` reads.  `error` is
modelled as an optional string (the source additionally tolerates non-string
truthy errors, displaying `'order error'` for them). -/
structure SwapOrder where
  error : Option String
  status : Option String
  deriving DecidableEq

/-- The transaction flags that `getSwapStatus` reads off `swap.tx`. -/
structure SwapTx where
  receipt : Bool
  sendingError : Option String
  sending : Bool
  sent : Bool
  signingError : Option String
  signing : Bool
  signed : Bool
  signingSupported : Bool
  deriving DecidableEq

/-- The swap fields read by `getSwapStatus` / `getSwapFriendlyError`.
`rate == null` / `tx == null` / `order == null` are modelled with `Option`. -/
structure Swap where
  error : Option String
  errorType : Option String
  rate : Option ℤ
  order : Option SwapOrder
  tx : Option SwapTx
  deriving DecidableEq

/-- A status record as produced by `createStatus(code, label, labelClass)
(detailsCode, details)`. -/
structure StatusInfo where
  code : String
  label : String
  labelClass : String
  detailsCode : String
  details : String
  deriving DecidableEq

def createStatus (code label labelClass detailsCode details : String) : StatusInfo :=
  ⟨code, label, labelClass, detailsCode, details⟩

def statusPending (detailsCode details : String) : StatusInfo :=
  createStatus "pending" "Processing" "text-primary" detailsCode details

def statusFailed (detailsCode details : String) : StatusInfo :=
  createStatus "failed" "Failed" "text-warning" detailsCode details

def statusComplete (detailsCode details : String) : StatusInfo :=
  createStatus "complete" "Complete" "text-success" detailsCode details

/-- Does `needle` occur as a contiguous run inside `haystack`?  (JS
`String.prototype.includes`.) -/
def charsLeadMatch : List Char → List Char → Bool
  | [], _ => true
  | _ :: _, [] => false
  | a :: as, b :: bs => a = b && charsLeadMatch as bs

def charsContain (needle : List Char) : List Char → Bool
  | [] => charsLeadMatch needle []
  | b :: bs => charsLeadMatch needle (b :: bs) || charsContain needle bs

/-- `error.toLowerCase().includes('insufficient funds')`. -/
def mentionsInsufficientFunds (error : String) : Bool :=
  charsContain "insufficient funds".toList (jsToLower error).toList

/-- `getSwapFriendlyError` (`Utilities/swap`).  Errors are modelled as
strings, so the source's `isString(error)` test is satisfied whenever the
error is present; the falsy early-return is represented by `""`. -/
def getSwapFriendlyError (swap : Swap) : String :=
  match swap.error with
  | none => ""
  | some err =>
    if swap.errorType = some "pollTransactionReceipt" then
      "Failed to check deposit txn status"
    else if swap.errorType = some "sendTransaction" then
      "Error sending deposit txn"
    else if swap.errorType.isSome then
      err
    else
      "Unknown error"

/-- `getSwapStatus` (`Utilities/swap`), transcribed check by check. -/
def getSwapStatus (swap : Swap) : StatusInfo :=
  if truthyStr swap.error then
    if mentionsInsufficientFunds (swap.error.getD "") then
      statusFailed "insufficient_funds" "insufficient funds"
    else
      statusFailed "error" (getSwapFriendlyError swap)
  else
    match swap.order with
    | none => statusPending "creating_order" "creating swap order"
    | some order =>
      if truthyStr order.error then
        statusFailed "order_error" (order.error.getD "")
      else if order.status = some "failed" then
        statusFailed "order_failed" "order was unsuccessful"
      else if order.status = some "cancelled" then
        statusFailed "order_cancelled" "order was cancelled"
      else if order.status = some "complete" then
        statusComplete "order_complete" "order completed successfully"
      else if swap.rate = none then
        statusPending "fetching_rate" "fetching market info"
      else
        match swap.tx with
        | none => statusPending "creating_tx" "generating transaction"
        | some tx =>
          if !tx.receipt then
            if truthyStr tx.sendingError then
              statusFailed "send_tx_error" (tx.sendingError.getD "")
            else if tx.sending then
              statusPending "sending" "sending transaction"
            else if tx.sent then
              statusPending "pending_receipt" "waiting for transaction receipt"
            else if truthyStr tx.signingError then
              statusFailed "sign_tx_error" (tx.signingError.getD "")
            else if tx.signing then
              statusPending "signing" "awaiting signature"
            else if tx.signed then
              statusPending "signed" "signed"
            else if !tx.signingSupported then
              statusPending "signing_unsupported" "wallet cannot sign"
            else
              statusPending "unsigned" "unsigned"
          else
            statusPending "processing" "processing swap"

/-- First guard in a priority list that holds, else the default. -/
def firstMatch : List (Bool × StatusInfo) → StatusInfo → StatusInfo
  | [], dflt => dflt
  | (g, r) :: rest, dflt => if g then r else firstMatch rest dflt

/-- The status priority list as the spec phrases it: error first, then the
order-terminal conditions, then the pending sub-states (`creating_order`
when no order, `fetching_rate` when no rate, `creating_tx` when no tx, the
signing/sending sub-chain, and `processing` as the remaining state). -/
def statusPriority (swap : Swap) : StatusInfo :=
  let orderErrorG := match swap.order with
    | some order => truthyStr order.error
    | none => false
  let orderStatusG : String → Bool := fun st => match swap.order with
    | some order => order.status = some st
    | none => false
  let txG : (SwapTx → Bool) → Bool := fun p => match swap.tx with
    | some tx => !tx.receipt && p tx
    | none => false
  firstMatch
    [ (truthyStr swap.error,
        if mentionsInsufficientFunds (swap.error.getD "") then
          statusFailed "insufficient_funds" "insufficient funds"
        else
          statusFailed "error" (getSwapFriendlyError swap)),
      (orderErrorG,
        statusFailed "order_error" ((swap.order.bind (·.error)).getD "")),
      (orderStatusG "failed", statusFailed "order_failed" "order was unsuccessful"),
      (orderStatusG "cancelled", statusFailed "order_cancelled" "order was cancelled"),
      (orderStatusG "complete", statusComplete "order_complete" "order completed successfully"),
      (swap.order.isNone, statusPending "creating_order" "creating swap order"),
      (swap.rate.isNone, statusPending "fetching_rate" "fetching market info"),
      (swap.tx.isNone, statusPending "creating_tx" "generating transaction"),
      (txG (fun tx => truthyStr tx.sendingError),
        statusFailed "send_tx_error" ((swap.tx.bind (·.sendingError)).getD "")),
      (txG (·.sending), statusPending "sending" "sending transaction"),
      (txG (·.sent), statusPending "pending_receipt" "waiting for transaction receipt"),
      (txG (fun tx => truthyStr tx.signingError),
        statusFailed "sign_tx_error" ((swap.tx.bind (·.signingError)).getD "")),
      (txG (·.signing), statusPending "signing" "awaiting signature"),
      (txG (·.signed), statusPending "signed" "signed"),
      (txG (fun tx => !tx.signingSupported),
        statusPending "signing_unsupported" "wallet cannot sign"),
      (txG (fun _ => true), statusPending "unsigned" "unsigned") ]
    (statusPending "processing" "processing swap")

/-- C5.  `getSwapStatus` is a pure function of the swap's field values, and
equals the first matching condition of the priority order
error > order-terminal > pending sub-states. -/
theorem getSwapStatus_is_priority (swap : Swap) :
    getSwapStatus swap = statusPriority swap := by
  obtain ⟨err, errType, rate, order, tx⟩ := swap
  simp only [getSwapStatus, statusPriority, firstMatch, decide_eq_true_eq]
  by_cases he : truthyStr err = true
  · rw [if_pos he, if_pos he]
  · rw [if_neg he, if_neg he]
    cases order with
    | none => rfl
    | some o =>
      dsimp only
      simp only [decide_eq_true_eq]
      by_cases hoe : truthyStr o.error = true
      · rw [if_pos hoe, if_pos hoe]
        rfl
      · rw [if_neg hoe, if_neg hoe]
        by_cases hf : o.status = some "failed"
        · rw [if_pos hf, if_pos hf]
        · rw [if_neg hf, if_neg hf]
          by_cases hc : o.status = some "cancelled"
          · rw [if_pos hc, if_pos hc]
          · rw [if_neg hc, if_neg hc]
            by_cases hcp : o.status = some "complete"
            · rw [if_pos hcp, if_pos hcp]
            · rw [if_neg hcp, if_neg hcp]
              by_cases hr : rate = none
              · subst hr
                rfl
              · have hr2 : ¬(rate.isNone = true) := by
                  simp only [Option.isNone_iff_eq_none]
                  exact hr
                rw [if_neg hr, if_neg hr2]
                cases tx with
                | none => rfl
                | some t =>
                  by_cases hrec : t.receipt = true
                  · simp only [hrec]
                    rfl
                  · rw [Bool.not_eq_true] at hrec
                    simp only [hrec, Bool.not_false, Bool.true_and, if_true]
                    by_cases hse : truthyStr t.sendingError = true
                    · rw [if_pos hse, if_pos hse]
                      rfl
                    · rw [if_neg hse, if_neg hse]
                      by_cases hsend : t.sending = true
                      · rw [if_pos hsend, if_pos hsend]
                        rfl
                      · rw [if_neg hsend, if_neg hsend]
                        by_cases hsent : t.sent = true
                        · rw [if_pos hsent, if_pos hsent]
                          rfl
                        · rw [if_neg hsent, if_neg hsent]
                          by_cases hsge : truthyStr t.signingError = true
                          · rw [if_pos hsge, if_pos hsge]
                            rfl
                          · rw [if_neg hsge, if_neg hsge]
                            by_cases hsg : t.signing = true
                            · rw [if_pos hsg]
                              rfl
                            · rw [if_neg hsg]
                              by_cases hsd : t.signed = true
                              · rw [if_pos hsd]
                                rfl
                              · rw [if_neg hsd]
                                by_cases hss : (!t.signingSupported) = true
                                · rw [if_pos hss]
                                  rfl
                                · rw [if_neg hss]
                                  rfl

end SwapStatus

namespace Eth

/-- The asset metadata `_createTransaction` dispatches on: `ETH` itself or an
ERC20 token with a contract address. -/
structure Asset where
  symbol : String
  erc20 : Bool
  contractAddress : String
  decimals : Nat
  deriving DecidableEq

/-- The unsigned transaction data assembled by
`EthereumWallet._createTransaction` (hex encoding of the numeric fields is
display-only and omitted). -/
structure EthTxData where
  chainId : Nat
  fromAddress : String
  toAddress : String
  value : ℤ
  callData : String
  gasPrice : Nat
  gas : Nat
  nonce : Nat
  deriving DecidableEq

/-- The transaction record `_createTransaction` resolves with. -/
structure EthTransaction where
  outputs : List (String × ℤ)
  feeAmount : ℤ
  feeSymbol : String
  txData : EthTxData
  deriving DecidableEq

/-- Options accepted by `_createTransaction`. -/
structure TxOptions where
  previousTx : Option EthTransaction
  nonce : Option Nat
  gasPrice : Option Nat
  gasLimit : Option Nat
  gas : Option Nat
  deriving DecidableEq

/-- The external collaborators `_createTransaction` awaits: the gas-price
estimate (`_getDefaultFeeRate`, already including its fixed fallback), the
gas estimate, the network transaction count for the address, and the ERC20
transfer call-data encoder (`tokenSendData`, outside this slice). -/
structure TxEnv where
  gasPriceEstimate : Nat
  gasEstimate : Nat
  transactionCount : Nat
  tokenSendData : String → ℤ → Nat → String
  toTxFee : Nat → Nat → ℤ

/-- JS `options.x || fallback` where a present-but-zero numeric option falls
back (0 is falsy). -/
def jsOrNatOpt (v : Option Nat) (fallback : Nat) : Nat := jsOrNat v fallback

/-- The nonce chosen by `_createTransaction`: an explicit `options.nonce` if
defined, else `previousTx.txData.nonce + 1` when `previousTx` comes from the
same (case-insensitively equal) address, else the network transaction count;
a zero custom nonce is falsy and falls back to the network count. -/
def chooseNonce (env : TxEnv) (options : TxOptions) (fromAddress : String) : Nat :=
  let customNonce : Option Nat :=
    match options.nonce with
    | some n => some n
    | none =>
      match options.previousTx with
      | some p =>
        if jsToLower p.txData.fromAddress = jsToLower fromAddress then
          some (p.txData.nonce + 1)
        else
          none
      | none => none
  jsOrNatOpt customNonce env.transactionCount

/-- `EthereumWallet._createTransaction` for a wallet whose address is
`walletAddress` (the `from` field): build the `to`/`value`/`data` shape from
the asset, resolve gas price, gas limit and nonce, and assemble the
transaction.  Throws on an unsupported asset. -/
def createTransaction (env : TxEnv) (chainId : Nat) (walletAddress : String)
    (address : String) (amount : ℤ) (asset : Asset) (options : TxOptions) :
    Except String EthTransaction :=
  let base : EthTxData :=
    { chainId := chainId, fromAddress := walletAddress, toAddress := "",
      value := 0, callData := "", gasPrice := 0, gas := 0, nonce := 0 }
  let gasPrice := jsOrNatOpt options.gasPrice env.gasPriceEstimate
  let gasLimit := jsOrNatOpt (match options.gasLimit with
    | some g => if g = 0 then options.gas else some g
    | none => options.gas) env.gasEstimate
  let nonce := chooseNonce env options walletAddress
  let assemble : EthTxData → EthTransaction := fun txData =>
    { outputs := [(address, amount)],
      feeAmount := env.toTxFee gasLimit gasPrice,
      feeSymbol := "ETH",
      txData := { txData with gasPrice := gasPrice, gas := gasLimit, nonce := nonce } }
  if asset.symbol = "ETH" then
    let v : ℤ := amount * (10 : ℤ) ^ asset.decimals
    .ok (assemble { base with toAddress := address, value := v })
  else if asset.erc20 then
    .ok (assemble { base with
                    toAddress := asset.contractAddress,
                    callData := env.tokenSendData address amount asset.decimals })
  else
    .error ("Unsupported asset " ++ asset.symbol
      ++ " provided to EthereumWallet.createTransaction")

/-- One swap's inputs to the per-swap transaction build.  Modelled from the
spec: `createSwapTx` (`Actions/swap`, outside this slice) reduces, for an
account-model wallet, to `_createTransaction(order.deposit, sendUnits,
sendAsset, options)`. -/
structure GroupSwap where
  depositAddress : String
  sendUnits : ℤ
  asset : Asset
  deriving DecidableEq

/-- The sequential branch of `createSwundleTxs` for one (wallet, asset)
group: build each swap's transaction in swundle order, threading
`previousTx` into the next build whenever the previous build produced an
error-free transaction. -/
def createGroupTxsGo (env : TxEnv) (chainId : Nat) (walletAddress : String) :
    Option EthTransaction → List GroupSwap → List (Except String EthTransaction)
  | _, [] => []
  | previousTx, swap :: rest =>
    let r := createTransaction env chainId walletAddress swap.depositAddress
      swap.sendUnits swap.asset ⟨previousTx, none, none, none, none⟩
    let previousTx' := match r with
      | .ok tx => some tx
      | .error _ => previousTx
    r :: createGroupTxsGo env chainId walletAddress previousTx' rest

/-- Sequential transaction building for a group of swaps funded from one
address, starting with no `previousTx`. -/
def createGroupTxs (env : TxEnv) (chainId : Nat) (walletAddress : String)
    (swaps : List GroupSwap) : List (Except String EthTransaction) :=
  createGroupTxsGo env chainId walletAddress none swaps

theorem createTransaction_fromAddress (env : TxEnv) (chainId : Nat)
    (walletAddress address : String) (amount : ℤ) (asset : Asset) (options : TxOptions)
    (tx : EthTransaction)
    (h : createTransaction env chainId walletAddress address amount asset options = .ok tx) :
    tx.txData.fromAddress = walletAddress := by
  unfold createTransaction at h
  dsimp only at h
  split at h
  · rw [Except.ok.injEq] at h
    rw [← h]
  · split at h
    · rw [Except.ok.injEq] at h
      rw [← h]
    · exact absurd h (by simp)

theorem createTransaction_nonce_chain (env : TxEnv) (chainId : Nat)
    (walletAddress address : String) (amount : ℤ) (asset : Asset) (options : TxOptions)
    (p tx : EthTransaction)
    (hopt : options.nonce = none)
    (hprev : options.previousTx = some p)
    (hfrom : jsToLower p.txData.fromAddress = jsToLower walletAddress)
    (h : createTransaction env chainId walletAddress address amount asset options = .ok tx) :
    tx.txData.nonce = p.txData.nonce + 1 := by
  have hnonce : chooseNonce env options walletAddress = p.txData.nonce + 1 := by
    unfold chooseNonce
    rw [hopt, hprev]
    dsimp only
    rw [if_pos hfrom]
    simp [jsOrNatOpt, jsOrNat]
  unfold createTransaction at h
  dsimp only at h
  split at h
  · rw [Except.ok.injEq] at h
    rw [← h]
    exact hnonce
  · split at h
    · rw [Except.ok.injEq] at h
      rw [← h]
      exact hnonce
    · exact absurd h (by simp)

theorem createGroupTxsGo_nonces (env : TxEnv) (chainId : Nat) (wa : String) :
    ∀ (swaps : List GroupSwap) (p : EthTransaction),
      p.txData.fromAddress = wa →
      (∀ r ∈ createGroupTxsGo env chainId wa (some p) swaps, r.isOk = true) →
      ∀ i tx, (createGroupTxsGo env chainId wa (some p) swaps)[i]? = some (.ok tx) →
        tx.txData.nonce = p.txData.nonce + 1 + i := by
  intro swaps
  induction swaps with
  | nil =>
    intro p hfrom hok i tx hget
    simp [createGroupTxsGo] at hget
  | cons swap rest ih =>
    intro p hfrom hok i tx hget
    simp only [createGroupTxsGo] at hget hok
    obtain ⟨t0, ht0⟩ : ∃ t0,
        createTransaction env chainId wa swap.depositAddress swap.sendUnits swap.asset
          ⟨some p, none, none, none, none⟩ = .ok t0 := by
      have := hok _ (List.mem_cons_self _ _)
      revert this
      cases createTransaction env chainId wa swap.depositAddress swap.sendUnits swap.asset
        ⟨some p, none, none, none, none⟩ with
      | ok t => exact fun _ => ⟨t, rfl⟩
      | error e => simp [Except.isOk, Except.toBool]
    rw [ht0] at hget hok
    dsimp only at hget hok
    have ht0nonce : t0.txData.nonce = p.txData.nonce + 1 :=
      createTransaction_nonce_chain env chainId wa swap.depositAddress swap.sendUnits
        swap.asset ⟨some p, none, none, none, none⟩ p t0 rfl rfl (by rw [hfrom]) ht0
    have ht0from : t0.txData.fromAddress = wa :=
      createTransaction_fromAddress env chainId wa swap.depositAddress swap.sendUnits
        swap.asset ⟨some p, none, none, none, none⟩ t0 ht0
    match i, hget with
    | 0, hget =>
      simp only [List.getElem?_cons_zero, Option.some.injEq, Except.ok.injEq] at hget
      rw [← hget]
      simpa using ht0nonce
    | Nat.succ i, hget =>
      rw [List.getElem?_cons_succ] at hget
      have := ih t0 ht0from (fun r hr => hok r (List.mem_cons_of_mem _ hr)) i tx hget
      rw [this, ht0nonce]
      omega

/-- C4.  First conjunct: when a `previousTx` from the same
(case-insensitively equal) address is supplied and no explicit nonce option
is given, the built transaction's nonce is `previousTx.txData.nonce + 1`.
Second conjunct: the sequential per-group build of `createSwundleTxs`
threads `previousTx` through the swaps in swundle order, so when every build
succeeds the built nonces are strictly consecutive in that order. -/
theorem eth_nonce_chaining :
    (∀ (env : TxEnv) (chainId : Nat) (wa address : String) (amount : ℤ) (asset : Asset)
      (options : TxOptions) (p tx : EthTransaction),
      options.nonce = none → options.previousTx = some p →
      jsToLower p.txData.fromAddress = jsToLower wa →
      createTransaction env chainId wa address amount asset options = .ok tx →
      tx.txData.nonce = p.txData.nonce + 1)
    ∧ (∀ (env : TxEnv) (chainId : Nat) (wa : String) (swaps : List GroupSwap),
      (∀ r ∈ createGroupTxs env chainId wa swaps, r.isOk = true) →
      ∀ i tx1 tx2,
        (createGroupTxs env chainId wa swaps)[i]? = some (.ok tx1) →
        (createGroupTxs env chainId wa swaps)[i + 1]? = some (.ok tx2) →
        tx2.txData.nonce = tx1.txData.nonce + 1) := by
  constructor
  · intro env chainId wa address amount asset options p tx h1 h2 h3 h4
    exact createTransaction_nonce_chain env chainId wa address amount asset options p tx
      h1 h2 h3 h4
  · intro env chainId wa swaps hok i tx1 tx2 hget1 hget2
    cases swaps with
    | nil => simp [createGroupTxs, createGroupTxsGo] at hget1
    | cons swap rest =>
      unfold createGroupTxs at hok hget1 hget2
      simp only [createGroupTxsGo] at hok hget1 hget2
      obtain ⟨t0, ht0⟩ : ∃ t0,
          createTransaction env chainId wa swap.depositAddress swap.sendUnits swap.asset
            ⟨none, none, none, none, none⟩ = .ok t0 := by
        have := hok _ (List.mem_cons_self _ _)
        revert this
        cases createTransaction env chainId wa swap.depositAddress swap.sendUnits swap.asset
          ⟨none, none, none, none, none⟩ with
        | ok t => exact fun _ => ⟨t, rfl⟩
        | error e => simp [Except.isOk, Except.toBool]
      rw [ht0] at hget1 hget2 hok
      dsimp only at hget1 hget2 hok
      have ht0from : t0.txData.fromAddress = wa :=
        createTransaction_fromAddress env chainId wa swap.depositAddress swap.sendUnits
          swap.asset ⟨none, none, none, none, none⟩ t0 ht0
      have hoktail : ∀ r ∈ createGroupTxsGo env chainId wa (some t0) rest, r.isOk = true :=
        fun r hr => hok r (List.mem_cons_of_mem _ hr)
      match i, hget1, hget2 with
      | 0, hget1, hget2 =>
        simp only [List.getElem?_cons_zero, Option.some.injEq, Except.ok.injEq] at hget1
        rw [List.getElem?_cons_succ] at hget2
        have := createGroupTxsGo_nonces env chainId wa rest t0 ht0from hoktail 0 tx2 hget2
        rw [this, ← hget1]
      | Nat.succ i, hget1, hget2 =>
        rw [List.getElem?_cons_succ] at hget1 hget2
        have h1 := createGroupTxsGo_nonces env chainId wa rest t0 ht0from hoktail i tx1 hget1
        have h2 := createGroupTxsGo_nonces env chainId wa rest t0 ht0from hoktail (i + 1) tx2
          hget2
        rw [h1, h2]
        omega

/-- Concrete network environment for witnesses. -/
def witEnv : TxEnv :=
  { gasPriceEstimate := 1, gasEstimate := 21000, transactionCount := 5,
    tokenSendData := fun _ _ _ => "", toTxFee := fun _ _ => 0 }

/-- The native asset for witnesses. -/
def ethAsset : Asset := { symbol := "ETH", erc20 := false, contractAddress := "", decimals := 0 }

/-- Two swaps funded from one address, in swundle order. -/
def witSwaps : List GroupSwap := [⟨"D1", 7, ethAsset⟩, ⟨"D2", 8, ethAsset⟩]

/-- First built transaction (nonce = network transaction count). -/
def witTx1 : EthTransaction :=
  { outputs := [("D1", 7)], feeAmount := 0, feeSymbol := "ETH",
    txData := { chainId := 1, fromAddress := "0xAB", toAddress := "D1", value := 7,
                callData := "", gasPrice := 1, gas := 21000, nonce := 5 } }

/-- Second built transaction (nonce chained from the first). -/
def witTx2 : EthTransaction :=
  { outputs := [("D2", 8)], feeAmount := 0, feeSymbol := "ETH",
    txData := { chainId := 1, fromAddress := "0xAB", toAddress := "D2", value := 8,
                callData := "", gasPrice := 1, gas := 21000, nonce := 6 } }

theorem eth_nonce_chaining_witness :
    witTx2.txData.nonce = witTx1.txData.nonce + 1
    ∧ witTx2.txData.nonce = witTx1.txData.nonce + 1 :=
  ⟨eth_nonce_chaining.1 witEnv 1 "0xAB" "D2" 8 ethAsset
      ⟨some witTx1, none, none, none, none⟩ witTx1 witTx2 rfl rfl rfl rfl,
    eth_nonce_chaining.2 witEnv 1 "0xAB" witSwaps (by decide) 0 witTx1 witTx2 rfl rfl⟩

end Eth

namespace SwundleActions

/-- Order slice used by the orchestrator (`order.deposit` feeds aggregate
transaction outputs). -/
structure OrderInfo where
  deposit : String
  deriving DecidableEq

/-- The draft-transaction slice `checkSufficientBalances` destructures:
`{ amount, feeAmount, feeSymbol }`.  `feeAmount` is optional (`if (feeAmount)`
in the source tests its presence). -/
structure SwapTxInfo where
  amount : ℤ
  feeAmount : Option ℤ
  feeSymbol : String
  deriving DecidableEq

/-- A swap as the swundle actions see it. -/
structure Swap where
  id : String
  sendWalletId : String
  sendSymbol : String
  sendUnits : ℤ
  error : Option String
  order : Option OrderInfo
  tx : SwapTxInfo
  deriving DecidableEq

/-- A swundle: id plus its ordered swaps. -/
structure Swundle where
  id : String
  swaps : List Swap
  deriving DecidableEq

/-- The wallet slice read by `checkSufficientBalances`: id, label and
per-symbol balances.  Wallet ids are unique keys of the wallet store. -/
structure WalletInfo where
  id : String
  label : Option String
  balances : List (String × ℤ)
  deriving DecidableEq

/-- `(walletBalances[walletId] || {})[symbol] || ZERO`. -/
def balanceOf (wallets : List WalletInfo) (walletId symbol : String) : ℤ :=
  match wallets.find? (fun w => w.id = walletId) with
  | some w =>
    match w.balances.find? (fun p => p.1 = symbol) with
    | some p => p.2
    | none => 0
  | none => 0

/-- `(allWallets[walletId] || {}).label || walletId` (a falsy label falls
back to the wallet id). -/
def walletLabel (wallets : List WalletInfo) (walletId : String) : String :=
  match wallets.find? (fun w => w.id = walletId) with
  | some w => match w.label with
    | some l => if l = "" then walletId else l
    | none => walletId
  | none => walletId

/-- Per-symbol accumulated `(amount, feeAmount)` totals of one wallet
(inner object of `walletSendTotals`); keys in insertion order. -/
abbrev Inner := List (String × (ℤ × ℤ))

/-- `walletSendTotals`: per-wallet map of per-symbol totals, keys in
insertion order as JS objects iterate them. -/
abbrev Totals := List (String × Inner)

/-- Update the entry at key `s` with `upd`, or append `(s, init)` when the
key is absent (the effect of one `mergeSum`, which `plus`es `BigNumber`
leaves and assigns missing ones). -/
def addToInner (s : String) (upd : ℤ × ℤ → ℤ × ℤ) (init : ℤ × ℤ) : Inner → Inner
  | [] => [(s, init)]
  | (s', v) :: rest =>
    if s' = s then (s', upd v) :: rest else (s', v) :: addToInner s upd init rest

/-- Same, one level up: update wallet `w`'s inner map at symbol `s`. -/
def addToTotals (w s : String) (upd : ℤ × ℤ → ℤ × ℤ) (init : ℤ × ℤ) : Totals → Totals
  | [] => [(w, [(s, init)])]
  | (w', inner) :: rest =>
    if w' = w then (w', addToInner s upd init inner) :: rest
    else (w', inner) :: addToTotals w s upd init rest

/-- `mergeSum(walletSendTotals, { [w]: { [s]: { amount: v } } })`. -/
def addAmount (t : Totals) (w s : String) (v : ℤ) : Totals :=
  addToTotals w s (fun p => (p.1 + v, p.2)) (v, 0) t

/-- `mergeSum(walletSendTotals, { [w]: { [s]: { feeAmount: v } } })`. -/
def addFee (t : Totals) (w s : String) (v : ℤ) : Totals :=
  addToTotals w s (fun p => (p.1, p.2 + v)) (0, v) t

/-- One iteration of the `swundle.swaps.forEach` accumulation: skip errored
swaps, merge the send amount under the send symbol, and merge the fee amount
under the fee symbol when present. -/
def totalsStep (t : Totals) (swap : Swap) : Totals :=
  if truthyStr swap.error then t
  else
    let t1 := addAmount t swap.sendWalletId swap.sendSymbol swap.tx.amount
    match swap.tx.feeAmount with
    | some f => addFee t1 swap.sendWalletId swap.tx.feeSymbol f
    | none => t1

/-- The accumulated `walletSendTotals` object. -/
def walletSendTotals (swaps : List Swap) : Totals := swaps.foldl totalsStep []

/-- The error message thrown on a shortfall. -/
def insufficientMsg (symbol label : String) : String :=
  "Insufficient " ++ symbol ++ " balance in wallet " ++ label ++ " for transaction fees."

/-- The nested `Object.entries` scan: the first `(walletId, symbol)` whose
accumulated amount-plus-fee exceeds the wallet's balance
(`balance.minus(amountPlusFee).isNegative()`). -/
def findShortfall (wallets : List WalletInfo) (t : Totals) : Option (String × String) :=
  t.findSome? (fun p =>
    p.2.findSome? (fun q =>
      if balanceOf wallets p.1 q.1 - (q.2.1 + q.2.2) < 0 then some (p.1, q.1) else none))

/-- `checkSufficientBalances` (`app/actions/swundle.js` lines 82–113): build
the per-(wallet, symbol) totals over error-free swaps and throw on the first
shortfall, naming the asset symbol and the wallet label. -/
def checkSufficientBalances (wallets : List WalletInfo) (swundle : Swundle) :
    Except String Swundle :=
  match findShortfall wallets (walletSendTotals swundle.swaps) with
  | some (w, s) => .error (insufficientMsg s (walletLabel wallets w))
  | none => .ok swundle

/-- One swap's contribution to the send total of `(w, s)`. -/
def amountContribution (swap : Swap) (w s : String) : ℤ :=
  if truthyStr swap.error = false ∧ swap.sendWalletId = w ∧ swap.sendSymbol = s then
    swap.tx.amount
  else 0

/-- One swap's contribution to the fee total of `(w, s)`. -/
def feeContribution (swap : Swap) (w s : String) : ℤ :=
  match swap.tx.feeAmount with
  | some f =>
    if truthyStr swap.error = false ∧ swap.sendWalletId = w ∧ swap.tx.feeSymbol = s then f
    else 0
  | none => 0

/-- Total send amount charged to `(w, s)` across all error-free swaps. -/
def sumAmounts (swaps : List Swap) (w s : String) : ℤ :=
  (swaps.map (amountContribution · w s)).sum

/-- Total fee amount charged to `(w, s)` across all error-free swaps. -/
def sumFees (swaps : List Swap) (w s : String) : ℤ :=
  (swaps.map (feeContribution · w s)).sum

/-- Does this error-free swap charge anything (send amount or fee) to the
`(w, s)` pair? -/
def touchesB (swap : Swap) (w s : String) : Bool :=
  !truthyStr swap.error && swap.sendWalletId = w
    && (swap.sendSymbol = s || (swap.tx.feeAmount.isSome && swap.tx.feeSymbol = s))

/-- Is the `(w, s)` pair charged by any swap in the swundle? -/
def touchedB (swaps : List Swap) (w s : String) : Bool :=
  swaps.any (touchesB · w s)

/-- Key lookup in the inner per-symbol map (unique keys, JS object). -/
def lookupInner : Inner → String → Option (ℤ × ℤ)
  | [], _ => none
  | (s', v) :: rest, s => if s' = s then some v else lookupInner rest s

/-- Key lookup in the outer per-wallet map. -/
def lookupTotals : Totals → String → String → Option (ℤ × ℤ)
  | [], _, _ => none
  | (w', inner) :: rest, w, s =>
    if w' = w then lookupInner inner s else lookupTotals rest w s

theorem lookupInner_addToInner (s' : String) (upd : ℤ × ℤ → ℤ × ℤ) (init : ℤ × ℤ) :
    ∀ (inner : Inner) (s : String),
      lookupInner (addToInner s' upd init inner) s =
        if s' = s then
          match lookupInner inner s with
          | some v => some (upd v)
          | none => some init
        else lookupInner inner s := by
  intro inner
  induction inner with
  | nil =>
    intro s
    by_cases h : s' = s <;> simp [addToInner, lookupInner, h]
  | cons p rest ih =>
    intro s
    obtain ⟨s0, v0⟩ := p
    simp only [addToInner]
    by_cases h0 : s0 = s'
    · subst h0
      rw [if_pos rfl]
      by_cases hs : s0 = s
      · subst hs
        simp [lookupInner]
      · simp [lookupInner, hs]
    · rw [if_neg h0]
      by_cases hs : s0 = s
      · subst hs
        have hns : ¬(s' = s0) := fun hc => h0 hc.symm
        simp [lookupInner, hns]
      · simp only [lookupInner, if_neg hs]
        rw [ih s]

theorem lookupTotals_addToTotals (w' s' : String) (upd : ℤ × ℤ → ℤ × ℤ) (init : ℤ × ℤ) :
    ∀ (t : Totals) (w s : String),
      lookupTotals (addToTotals w' s' upd init t) w s =
        if w' = w ∧ s' = s then
          match lookupTotals t w s with
          | some v => some (upd v)
          | none => some init
        else lookupTotals t w s := by
  intro t
  induction t with
  | nil =>
    intro w s
    by_cases hw : w' = w <;> by_cases hs : s' = s <;>
      simp [addToTotals, lookupTotals, lookupInner, hw, hs]
  | cons p rest ih =>
    intro w s
    obtain ⟨w0, inner0⟩ := p
    simp only [addToTotals]
    by_cases h0 : w0 = w'
    · subst h0
      rw [if_pos rfl]
      by_cases hw : w0 = w
      · subst hw
        simp only [lookupTotals, if_pos rfl]
        rw [lookupInner_addToInner]
        by_cases hs : s' = s
        · simp [hs]
        · simp [hs]
      · simp only [lookupTotals, if_neg hw]
        have hne : ¬(w0 = w ∧ s' = s) := fun hc => hw hc.1
        rw [if_neg hne]
    · rw [if_neg h0]
      by_cases hw : w0 = w
      · subst hw
        simp only [lookupTotals, if_pos rfl]
        have hne : ¬(w' = w0 ∧ s' = s) := fun hc => h0 hc.1.symm
        rw [if_neg hne]
        simp
      · simp only [lookupTotals, if_neg hw]
        rw [ih w s]

theorem lookupTotals_totalsStep (t : Totals) (swap : Swap) (w s : String) :
    lookupTotals (totalsStep t swap) w s =
      match lookupTotals t w s with
      | some v => some (v.1 + amountContribution swap w s, v.2 + feeContribution swap w s)
      | none =>
        if touchesB swap w s then
          some (amountContribution swap w s, feeContribution swap w s)
        else none := by
  unfold totalsStep
  by_cases herr : truthyStr swap.error = true
  · rw [if_pos herr]
    cases hfee : swap.tx.feeAmount <;>
      cases hlook : lookupTotals t w s <;>
      simp [amountContribution, feeContribution, touchesB, herr, hfee]
  · rw [if_neg herr]
    rw [Bool.not_eq_true] at herr
    dsimp only
    cases hfee : swap.tx.feeAmount with
    | none =>
      simp only [addAmount]
      rw [lookupTotals_addToTotals]
      by_cases hw : swap.sendWalletId = w <;>
        by_cases hss : swap.sendSymbol = s <;>
        cases hlook : lookupTotals t w s <;>
        simp [amountContribution, feeContribution, touchesB, herr, hfee, hw, hss]
    | some f =>
      simp only [addAmount, addFee]
      rw [lookupTotals_addToTotals, lookupTotals_addToTotals]
      by_cases hw : swap.sendWalletId = w <;>
        by_cases hss : swap.sendSymbol = s <;>
        by_cases hfs : swap.tx.feeSymbol = s <;>
        cases hlook : lookupTotals t w s <;>
        simp [amountContribution, feeContribution, touchesB, herr, hfee, hw, hss, hfs]

theorem contributions_zero_of_not_touches (swap : Swap) (w s : String)
    (h : touchesB swap w s = false) :
    amountContribution swap w s = 0 ∧ feeContribution swap w s = 0 := by
  by_cases herr : truthyStr swap.error = true <;>
    by_cases hw : swap.sendWalletId = w <;>
    by_cases hss : swap.sendSymbol = s <;>
    cases hfee : swap.tx.feeAmount <;>
    by_cases hfs : swap.tx.feeSymbol = s <;>
    simp_all [touchesB, amountContribution, feeContribution]

theorem lookupTotals_walletSendTotals (swaps : List Swap) :
    ∀ (t : Totals) (w s : String),
      lookupTotals (swaps.foldl totalsStep t) w s =
        match lookupTotals t w s with
        | some v => some (v.1 + sumAmounts swaps w s, v.2 + sumFees swaps w s)
        | none =>
          if touchedB swaps w s then
            some (sumAmounts swaps w s, sumFees swaps w s)
          else none := by
  induction swaps with
  | nil =>
    intro t w s
    cases hlook : lookupTotals t w s <;> simp [sumAmounts, sumFees, touchedB, hlook]
  | cons swap rest ih =>
    intro t w s
    rw [List.foldl_cons, ih, lookupTotals_totalsStep]
    cases hlook : lookupTotals t w s with
    | some v =>
      dsimp only
      simp only [sumAmounts, sumFees, List.map_cons, List.sum_cons, Option.some.injEq,
        Prod.mk.injEq]
      constructor <;> ring
    | none =>
      dsimp only
      by_cases ht : touchesB swap w s = true
      · rw [if_pos ht]
        dsimp only
        simp only [sumAmounts, sumFees, touchedB, List.map_cons, List.sum_cons, List.any_cons,
          ht, Bool.true_or, if_true]
      · rw [if_neg ht]
        rw [Bool.not_eq_true] at ht
        obtain ⟨hac, hfc⟩ := contributions_zero_of_not_touches swap w s ht
        simp only [sumAmounts, sumFees, touchedB, List.map_cons, List.sum_cons, List.any_cons,
          ht, Bool.false_or, hac, hfc, zero_add]

/-- Well-formedness of the accumulated totals object: outer wallet keys are
unique and each inner symbol map has unique keys, as JS object keys are. -/
def totalsWF (t : Totals) : Prop :=
  (t.map Prod.fst).Nodup ∧ ∀ p ∈ t, (p.2.map Prod.fst).Nodup

theorem mem_keys_addToInner (s x : String) (upd : ℤ × ℤ → ℤ × ℤ) (init : ℤ × ℤ) :
    ∀ inner : Inner,
      x ∈ (addToInner s upd init inner).map Prod.fst ↔ x ∈ inner.map Prod.fst ∨ x = s := by
  intro inner
  induction inner with
  | nil => simp [addToInner]
  | cons p rest ih =>
    obtain ⟨s0, v0⟩ := p
    simp only [addToInner]
    by_cases h0 : s0 = s
    · rw [if_pos h0]
      subst h0
      simp only [List.map_cons, List.mem_cons]
      tauto
    · rw [if_neg h0]
      simp only [List.map_cons, List.mem_cons, ih]
      tauto

theorem nodup_keys_addToInner (s : String) (upd : ℤ × ℤ → ℤ × ℤ) (init : ℤ × ℤ) :
    ∀ inner : Inner, (inner.map Prod.fst).Nodup →
      ((addToInner s upd init inner).map Prod.fst).Nodup := by
  intro inner
  induction inner with
  | nil => simp [addToInner]
  | cons p rest ih =>
    obtain ⟨s0, v0⟩ := p
    intro hnd
    simp only [List.map_cons, List.nodup_cons] at hnd
    simp only [addToInner]
    by_cases h0 : s0 = s
    · rw [if_pos h0]
      simp only [List.map_cons, List.nodup_cons]
      exact hnd
    · rw [if_neg h0]
      simp only [List.map_cons, List.nodup_cons]
      refine ⟨?_, ih hnd.2⟩
      rw [mem_keys_addToInner]
      rintro (hx | hx)
      · exact hnd.1 hx
      · exact h0 hx

theorem lookupInner_of_mem (s : String) (v : ℤ × ℤ) :
    ∀ inner : Inner, (inner.map Prod.fst).Nodup → (s, v) ∈ inner →
      lookupInner inner s = some v := by
  intro inner
  induction inner with
  | nil => simp
  | cons p rest ih =>
    obtain ⟨s0, v0⟩ := p
    intro hnd hmem
    simp only [List.map_cons, List.nodup_cons] at hnd
    rcases List.mem_cons.mp hmem with heq | hmem2
    · rw [Prod.mk.injEq] at heq
      obtain ⟨h1, h2⟩ := heq
      subst h1; subst h2
      simp [lookupInner]
    · have hs0 : ¬(s0 = s) := by
        intro hc
        subst hc
        exact hnd.1 (List.mem_map.mpr ⟨(s0, v), hmem2, rfl⟩)
      simp only [lookupInner, if_neg hs0]
      exact ih hnd.2 hmem2

theorem mem_keys_addToTotals (w s x : String) (upd : ℤ × ℤ → ℤ × ℤ) (init : ℤ × ℤ) :
    ∀ t : Totals,
      x ∈ (addToTotals w s upd init t).map Prod.fst ↔ x ∈ t.map Prod.fst ∨ x = w := by
  intro t
  induction t with
  | nil => simp [addToTotals]
  | cons p rest ih =>
    obtain ⟨w0, inner0⟩ := p
    simp only [addToTotals]
    by_cases h0 : w0 = w
    · rw [if_pos h0]
      subst h0
      simp only [List.map_cons, List.mem_cons]
      tauto
    · rw [if_neg h0]
      simp only [List.map_cons, List.mem_cons, ih]
      tauto

theorem totalsWF_addToTotals (w s : String) (upd : ℤ × ℤ → ℤ × ℤ) (init : ℤ × ℤ) :
    ∀ t : Totals, totalsWF t → totalsWF (addToTotals w s upd init t) := by
  intro t
  induction t with
  | nil =>
    intro _
    refine ⟨by simp [addToTotals], ?_⟩
    intro p hp
    simp only [addToTotals, List.mem_singleton] at hp
    subst hp
    simp
  | cons p rest ih =>
    obtain ⟨w0, inner0⟩ := p
    intro ⟨hnd, hinner⟩
    simp only [List.map_cons, List.nodup_cons] at hnd
    by_cases h0 : w0 = w
    · refine ⟨?_, ?_⟩
      · simp only [addToTotals]
        rw [if_pos h0]
        simp only [List.map_cons, List.nodup_cons]
        exact hnd
      · intro p hp
        simp only [addToTotals] at hp
        rw [if_pos h0] at hp
        rcases List.mem_cons.mp hp with heq | hmem
        · subst heq
          exact nodup_keys_addToInner s upd init inner0
            (hinner (w0, inner0) (List.mem_cons_self _ _))
        · exact hinner p (List.mem_cons_of_mem _ hmem)
    · have hwf : totalsWF rest :=
        ⟨hnd.2, fun p hp => hinner p (List.mem_cons_of_mem _ hp)⟩
      obtain ⟨hnd2, hinner2⟩ := ih hwf
      refine ⟨?_, ?_⟩
      · simp only [addToTotals]
        rw [if_neg h0]
        simp only [List.map_cons, List.nodup_cons]
        refine ⟨?_, hnd2⟩
        rw [mem_keys_addToTotals]
        rintro (hx | hx)
        · exact hnd.1 hx
        · exact h0 hx
      · intro p hp
        simp only [addToTotals] at hp
        rw [if_neg h0] at hp
        rcases List.mem_cons.mp hp with heq | hmem
        · subst heq
          exact hinner (w0, inner0) (List.mem_cons_self _ _)
        · exact hinner2 p hmem

theorem totalsWF_walletSendTotals (swaps : List Swap) :
    ∀ t : Totals, totalsWF t → totalsWF (swaps.foldl totalsStep t) := by
  induction swaps with
  | nil => intro t h; simpa using h
  | cons swap rest ih =>
    intro t h
    rw [List.foldl_cons]
    refine ih _ ?_
    unfold totalsStep
    split
    · exact h
    · cases swap.tx.feeAmount <;>
        simp only [addAmount, addFee] <;>
        [skip; exact totalsWF_addToTotals _ _ _ _ _ (totalsWF_addToTotals _ _ _ _ _ h)]
      exact totalsWF_addToTotals _ _ _ _ _ h

theorem lookupTotals_of_mem (w s : String) (inner : Inner) (v : ℤ × ℤ) :
    ∀ t : Totals, totalsWF t → (w, inner) ∈ t → (s, v) ∈ inner →
      lookupTotals t w s = some v := by
  intro t
  induction t with
  | nil => simp
  | cons p rest ih =>
    obtain ⟨w0, inner0⟩ := p
    intro hwf hmem hv
    obtain ⟨hnd, hinner⟩ := hwf
    simp only [List.map_cons, List.nodup_cons] at hnd
    rcases List.mem_cons.mp hmem with heq | hmem2
    · rw [Prod.mk.injEq] at heq
      obtain ⟨h1, h2⟩ := heq
      subst h1; subst h2
      simp only [lookupTotals, if_pos rfl]
      exact lookupInner_of_mem s v inner (hinner (w, inner) (List.mem_cons_self _ _)) hv
    · have hw0 : ¬(w0 = w) := by
        intro hc
        subst hc
        exact hnd.1 (List.mem_map.mpr ⟨(w0, inner), hmem2, rfl⟩)
      simp only [lookupTotals, if_neg hw0]
      exact ih ⟨hnd.2, fun p hp => hinner p (List.mem_cons_of_mem _ hp)⟩ hmem2 hv

theorem mem_of_lookupTotals (w s : String) (v : ℤ × ℤ) :
    ∀ t : Totals, lookupTotals t w s = some v →
      ∃ inner, (w, inner) ∈ t ∧ (s, v) ∈ inner := by
  intro t
  induction t with
  | nil => simp [lookupTotals]
  | cons p rest ih =>
    obtain ⟨w0, inner0⟩ := p
    intro h
    simp only [lookupTotals] at h
    split at h
    · rename_i hw0
      subst hw0
      refine ⟨inner0, List.mem_cons_self _ _, ?_⟩
      clear ih
      induction inner0 with
      | nil => simp [lookupInner] at h
      | cons q rest2 ih2 =>
        obtain ⟨s0, v0⟩ := q
        simp only [lookupInner] at h
        split at h
        · rename_i hs0
          subst hs0
          rw [Option.some.injEq] at h
          subst h
          exact List.mem_cons_self _ _
        · exact List.mem_cons_of_mem _ (ih2 h)
    · obtain ⟨inner, h1, h2⟩ := ih h
      exact ⟨inner, List.mem_cons_of_mem _ h1, h2⟩

theorem findShortfall_eq_none_iff (wallets : List WalletInfo) (t : Totals) :
    findShortfall wallets t = none ↔
      ∀ p ∈ t, ∀ q ∈ p.2, ¬(balanceOf wallets p.1 q.1 - (q.2.1 + q.2.2) < 0) := by
  unfold findShortfall
  rw [List.findSome?_eq_none_iff]
  constructor
  · intro h p hp q hq hcond
    have h2 := h p hp
    rw [List.findSome?_eq_none_iff] at h2
    have h3 := h2 q hq
    rw [if_pos hcond] at h3
    exact absurd h3 (by simp)
  · intro h p hp
    rw [List.findSome?_eq_none_iff]
    intro q hq
    rw [if_neg (h p hp q hq)]

theorem findShortfall_some (wallets : List WalletInfo) (t : Totals) (w s : String)
    (h : findShortfall wallets t = some (w, s)) :
    ∃ inner v, (w, inner) ∈ t ∧ (s, v) ∈ inner
      ∧ balanceOf wallets w s - (v.1 + v.2) < 0 := by
  unfold findShortfall at h
  obtain ⟨p, hp, hfp⟩ := List.exists_of_findSome?_eq_some h
  obtain ⟨q, hq, hfq⟩ := List.exists_of_findSome?_eq_some hfp
  by_cases hcond : balanceOf wallets p.1 q.1 - (q.2.1 + q.2.2) < 0
  · rw [if_pos hcond] at hfq
    rw [Option.some.injEq, Prod.mk.injEq] at hfq
    obtain ⟨hw, hs⟩ := hfq
    subst hw; subst hs
    refine ⟨p.2, q.2, ?_, ?_, hcond⟩
    · simpa using hp
    · simpa using hq
  · rw [if_neg hcond] at hfq
    exact absurd hfq (by simp)

/-- C1.  `checkSufficientBalances` throws exactly when some
(wallet, asset) pair charged by the swundle's error-free swaps has total
send amount plus total fee amount exceeding that wallet's known balance for
that asset, and the thrown message names the asset symbol and the wallet
label of such a pair.  (A swundle whose swaps are individually affordable
but jointly exceed a shared balance therefore fails init: the witness
instantiates exactly that scenario.) -/
theorem checkSufficientBalances_spec (wallets : List WalletInfo) (swundle : Swundle) :
    ((∃ e, checkSufficientBalances wallets swundle = .error e) ↔
      ∃ w s, touchedB swundle.swaps w s = true
        ∧ balanceOf wallets w s < sumAmounts swundle.swaps w s + sumFees swundle.swaps w s)
    ∧ (∀ e, checkSufficientBalances wallets swundle = .error e →
      ∃ w s, touchedB swundle.swaps w s = true
        ∧ balanceOf wallets w s < sumAmounts swundle.swaps w s + sumFees swundle.swaps w s
        ∧ e = insufficientMsg s (walletLabel wallets w)) := by
  have hwf : totalsWF (walletSendTotals swundle.swaps) :=
    totalsWF_walletSendTotals swundle.swaps [] ⟨List.nodup_nil, by simp⟩
  have hlookup : ∀ w s,
      lookupTotals (walletSendTotals swundle.swaps) w s =
        if touchedB swundle.swaps w s = true then
          some (sumAmounts swundle.swaps w s, sumFees swundle.swaps w s)
        else none := by
    intro w s
    have := lookupTotals_walletSendTotals swundle.swaps [] w s
    simpa [walletSendTotals, lookupTotals] using this
  have herr : ∀ e, checkSufficientBalances wallets swundle = .error e →
      ∃ w s, touchedB swundle.swaps w s = true
        ∧ balanceOf wallets w s < sumAmounts swundle.swaps w s + sumFees swundle.swaps w s
        ∧ e = insufficientMsg s (walletLabel wallets w) := by
    intro e he
    unfold checkSufficientBalances at he
    cases hfind : findShortfall wallets (walletSendTotals swundle.swaps) with
    | none => rw [hfind] at he; exact absurd he (by simp)
    | some p =>
      obtain ⟨w, s⟩ := p
      rw [hfind] at he
      rw [Except.error.injEq] at he
      obtain ⟨inner, v, hmem1, hmem2, hshort⟩ :=
        findShortfall_some wallets (walletSendTotals swundle.swaps) w s hfind
      have hlk := lookupTotals_of_mem w s inner v (walletSendTotals swundle.swaps)
        hwf hmem1 hmem2
      rw [hlookup w s] at hlk
      by_cases ht : touchedB swundle.swaps w s = true
      · rw [if_pos ht, Option.some.injEq] at hlk
        refine ⟨w, s, ht, ?_, he.symm⟩
        rw [← hlk] at hshort
        dsimp only at hshort
        omega
      · rw [if_neg ht] at hlk
        exact absurd hlk (by simp)
  refine ⟨⟨fun ⟨e, he⟩ => ?_, fun ⟨w, s, ht, hlt⟩ => ?_⟩, herr⟩
  · obtain ⟨w, s, ht, hlt, _⟩ := herr e he
    exact ⟨w, s, ht, hlt⟩
  · cases hfind : findShortfall wallets (walletSendTotals swundle.swaps) with
    | some p =>
      refine ⟨insufficientMsg p.2 (walletLabel wallets p.1), ?_⟩
      unfold checkSufficientBalances
      rw [hfind]
    | none =>
      exfalso
      rw [findShortfall_eq_none_iff] at hfind
      have hlk := hlookup w s
      rw [if_pos ht] at hlk
      obtain ⟨inner, hmem1, hmem2⟩ := mem_of_lookupTotals w s _ _ hlk
      have := hfind (w, inner) hmem1
        (s, (sumAmounts swundle.swaps w s, sumFees swundle.swaps w s)) hmem2
      dsimp only at this
      omega

/-- One wallet holding 100 BTC-units. -/
def witWallets : List WalletInfo := [⟨"w1", some "Main", [("BTC", 100)]⟩]

/-- Two swaps, each needing 60 + 10 = 70 (individually affordable against
the 100 balance) but jointly needing 140. -/
def witSwundle : Swundle :=
  { id := "sw1",
    swaps :=
      [⟨"a", "w1", "BTC", 60, none, none, ⟨60, some 10, "BTC"⟩⟩,
       ⟨"b", "w1", "BTC", 60, none, none, ⟨60, some 10, "BTC"⟩⟩] }

theorem checkSufficientBalances_spec_witness :
    (∃ w s, touchedB witSwundle.swaps w s = true
      ∧ balanceOf witWallets w s
        < sumAmounts witSwundle.swaps w s + sumFees witSwundle.swaps w s
      ∧ insufficientMsg "BTC" "Main" = insufficientMsg s (walletLabel witWallets w))
    ∧ (∃ e, checkSufficientBalances witWallets witSwundle = .error e) :=
  ⟨(checkSufficientBalances_spec witWallets witSwundle).2
      (insufficientMsg "BTC" "Main") rfl,
    (checkSufficientBalances_spec witWallets witSwundle).1.mpr
      ⟨"w1", "BTC", by decide, by decide⟩⟩

/-- An aggregate transaction as dispatched by `createAggregateTx`: the
funding wallet, the asset, and the ordered outputs. -/
structure AggTx where
  walletId : String
  assetSymbol : String
  outputs : List (String × ℤ)
  deriving DecidableEq

/-- The per-swap transaction produced by `createSwapTx` in the sequential
branch; only its `error` field drives the `previousTx` threading here. -/
structure SeqTx where
  id : String
  error : Option String
  deriving DecidableEq

/-- What `createSwundleTxs` does for one (wallet, asset) group: skip it
entirely, build one aggregate transaction attached (with its output index)
to every swap, or build sequential per-swap transactions. -/
inductive GroupOutcome where
  | skipped
  | aggregated (tx : AggTx) (attachments : List (String × Nat))
  | sequential (txs : List SeqTx)
  deriving DecidableEq

/-- External collaborators of `createSwundleTxs`: the wallet capability
check, the aggregate-transaction builder, and the per-swap builder
(`createSwapTx`, `Actions/tx`/`Actions/swap`, outside this slice). -/
structure TxBuildEnv where
  isAggregateTransactionSupported : String → String → Bool
  createAggregateTx : String → List (String × ℤ) → String → AggTx
  createSwapTx : Swap → Option SeqTx → SeqTx

/-- Append `s` to the group keyed `k`, or start a new group at the end. -/
def insertGrouped (k : String) (s : Swap) :
    List (String × List Swap) → List (String × List Swap)
  | [] => [(k, [s])]
  | (k', g) :: rest =>
    if k' = k then (k', g ++ [s]) :: rest else (k', g) :: insertGrouped k s rest

/-- lodash `groupBy`: keys in first-occurrence order, members in original
order. -/
def groupByKey (key : Swap → String) (swaps : List Swap) : List (String × List Swap) :=
  swaps.foldl (fun acc s => insertGrouped (key s) s acc) []

/-- The sequential (account-model) branch: build each swap's transaction in
order, updating `previousTx` only when the built transaction has no error. -/
def buildSequential (createSwapTx : Swap → Option SeqTx → SeqTx) :
    Option SeqTx → List Swap → List SeqTx
  | _, [] => []
  | previousTx, swap :: rest =>
    let tx := createSwapTx swap previousTx
    let previousTx' := if truthyStr tx.error then previousTx else some tx
    tx :: buildSequential createSwapTx previousTx' rest

/-- The body of `createSwundleTxs` for one (wallet, asset) group: when the
wallet supports aggregate transactions for the asset, skip the group if any
swap has an error, else build one aggregate transaction over every swap's
`(order.deposit, sendUnits)` in group order and attach it to every swap
(`setSwapTx(swap.id, tx, i)`); otherwise build sequential transactions. -/
def processAssetGroup (env : TxBuildEnv) (walletId symbol : String) (swaps : List Swap) :
    GroupOutcome :=
  if env.isAggregateTransactionSupported walletId symbol then
    if swaps.any (fun swap => truthyStr swap.error) then .skipped
    else
      let outputs := swaps.map (fun swap => ((swap.order.getD ⟨""⟩).deposit, swap.sendUnits))
      let tx := env.createAggregateTx walletId outputs symbol
      .aggregated tx (swaps.enum.map (fun p => (p.2.id, p.1)))
  else
    .sequential (buildSequential env.createSwapTx none swaps)

/-- `createSwundleTxs` (`app/actions/swundle.js` lines 115–147): group the
swaps by funding wallet, then by send asset, and process each group. -/
def createSwundleTxs (env : TxBuildEnv) (swundle : Swundle) :
    List (String × String × GroupOutcome) :=
  (groupByKey (·.sendWalletId) swundle.swaps).flatMap (fun p =>
    (groupByKey (·.sendSymbol) p.2).map (fun q =>
      (p.1, q.1, processAssetGroup env p.1 q.1 q.2)))

/-- C10.  For every (funding wallet, send asset) group whose wallet supports
aggregate transactions: if some swap of the group has an error, the group is
skipped outright (no transaction is built or attached for any swap of the
group); otherwise exactly one aggregate transaction is built, with outputs
every swap's deposit address and send amount in group order, and it is
attached to every swap of the group at its index. -/
theorem createSwundleTxs_aggregate_policy (env : TxBuildEnv) (swundle : Swundle)
    (walletId symbol : String) (walletSwaps groupSwaps : List Swap)
    (hmem1 : (walletId, walletSwaps) ∈ groupByKey (·.sendWalletId) swundle.swaps)
    (hmem2 : (symbol, groupSwaps) ∈ groupByKey (·.sendSymbol) walletSwaps)
    (hsupp : env.isAggregateTransactionSupported walletId symbol = true) :
    ((∃ swap ∈ groupSwaps, truthyStr swap.error = true) →
      (walletId, symbol, GroupOutcome.skipped) ∈ createSwundleTxs env swundle)
    ∧ ((∀ swap ∈ groupSwaps, truthyStr swap.error = false) →
      (walletId, symbol, GroupOutcome.aggregated
          (env.createAggregateTx walletId
            (groupSwaps.map (fun swap => ((swap.order.getD ⟨""⟩).deposit, swap.sendUnits)))
            symbol)
          (groupSwaps.enum.map (fun p => (p.2.id, p.1))))
        ∈ createSwundleTxs env swundle) := by
  have hmem : (walletId, symbol, processAssetGroup env walletId symbol groupSwaps)
      ∈ createSwundleTxs env swundle := by
    unfold createSwundleTxs
    refine List.mem_flatMap.mpr ⟨(walletId, walletSwaps), hmem1, ?_⟩
    exact List.mem_map.mpr ⟨(symbol, groupSwaps), hmem2, rfl⟩
  constructor
  · rintro ⟨swap, hsw, herr⟩
    have hany : groupSwaps.any (fun swap => truthyStr swap.error) = true :=
      List.any_eq_true.mpr ⟨swap, hsw, herr⟩
    have hproc : processAssetGroup env walletId symbol groupSwaps = .skipped := by
      unfold processAssetGroup
      rw [if_pos hsupp, if_pos hany]
    rwa [hproc] at hmem
  · intro hall
    have hany : ¬(groupSwaps.any (fun swap => truthyStr swap.error) = true) := by
      rw [List.any_eq_true]
      rintro ⟨swap, hsw, herr⟩
      rw [hall swap hsw] at herr
      exact absurd herr (by simp)
    have hproc : processAssetGroup env walletId symbol groupSwaps
        = .aggregated
          (env.createAggregateTx walletId
            (groupSwaps.map (fun swap => ((swap.order.getD ⟨""⟩).deposit, swap.sendUnits)))
            symbol)
          (groupSwaps.enum.map (fun p => (p.2.id, p.1))) := by
      unfold processAssetGroup
      rw [if_pos hsupp, if_neg hany]
    rwa [hproc] at hmem

/-- Any aggregate group in `witSwundle` is supported in this witness
environment; the swaps carry no errors. -/
def witTxBuildEnv : TxBuildEnv :=
  { isAggregateTransactionSupported := fun _ _ => true,
    createAggregateTx := fun walletId outputs symbol => ⟨walletId, symbol, outputs⟩,
    createSwapTx := fun swap _ => ⟨swap.id, none⟩ }

theorem createSwundleTxs_aggregate_policy_witness :
    (witSwundle.swaps.head?.map (·.sendWalletId) = some "w1")
    ∧ ("w1", "BTC", GroupOutcome.aggregated
        (witTxBuildEnv.createAggregateTx "w1"
          (witSwundle.swaps.map
            (fun swap => ((swap.order.getD ⟨""⟩).deposit, swap.sendUnits)))
          "BTC")
        (witSwundle.swaps.enum.map (fun p => (p.2.id, p.1))))
      ∈ createSwundleTxs witTxBuildEnv witSwundle :=
  ⟨rfl,
    (createSwundleTxs_aggregate_policy witTxBuildEnv witSwundle "w1" "BTC"
      witSwundle.swaps witSwundle.swaps (by decide) (by decide) rfl).2
      (by decide)⟩

/-- The lifecycle actions dispatched by the swundle orchestrator. -/
inductive Action where
  | initStarted (id : String)
  | initSuccess (id : String)
  | initFailed (id : String) (error : String)
  | signStarted (id : String)
  | signSuccess (id : String)
  | signFailed (id : String) (error : String)
  | sendStarted (id : String)
  | sendSuccess (id : String)
  | sendFailed (id : String) (error : String)
  deriving DecidableEq

/-- The per-swap steps the orchestrator awaits (all from `Actions/swap`,
outside this slice, so passed in as fallible functions). -/
structure OrchestrationEnv where
  updateMarketInfo : Swap → Except String Swap
  checkSufficientDeposit : Swap → Except String Swap
  createOrder : Swap → Except String Swap
  createSwundleTxs : Swundle → Except String Swundle
  signSwap : Swap → Except String Swap
  sendSwap : Swap → Except String Swap

/-- The promise chain inside `initSwundle`: refresh market info and deposit
sufficiency for every swap, run the cross-swap balance check, place every
order, then build the transactions.  The first rejection wins. -/
def initBody (env : OrchestrationEnv) (wallets : List WalletInfo) (swundle : Swundle) :
    Except String Swundle := do
  let swaps ← swundle.swaps.mapM (fun swap => do
    let swap ← env.updateMarketInfo swap
    env.checkSufficientDeposit swap)
  let s ← checkSufficientBalances wallets { swundle with swaps := swaps }
  let swaps ← s.swaps.mapM env.createOrder
  env.createSwundleTxs { s with swaps := swaps }

/-- `initSwundle`: dispatch `INIT_STARTED`, run the body, then dispatch
`INIT_SUCCESS` — or catch the error, dispatch `INIT_FAILED(message)` and
resolve normally (the error is swallowed, the promise resolves with
`undefined`). -/
def initSwundle (env : OrchestrationEnv) (wallets : List WalletInfo) (swundle : Swundle) :
    List Action × Except String (Option Swundle) :=
  match initBody env wallets swundle with
  | .ok s => ([.initStarted swundle.id, .initSuccess swundle.id], .ok (some s))
  | .error e => ([.initStarted swundle.id, .initFailed swundle.id e], .ok none)

/-- The body of `signSwundle`: sign every swap sequentially. -/
def signBody (env : OrchestrationEnv) (swundle : Swundle) : Except String Swundle :=
  (swundle.swaps.mapM env.signSwap).map (fun swaps => { swundle with swaps := swaps })

/-- `signSwundle`: dispatch `SIGN_STARTED`, sign every swap, dispatch
`SIGN_SUCCESS` — or dispatch `SIGN_FAILED(message)` and re-throw the same
error to the caller. -/
def signSwundle (env : OrchestrationEnv) (swundle : Swundle) :
    List Action × Except String Swundle :=
  match signBody env swundle with
  | .ok s => ([.signStarted swundle.id, .signSuccess swundle.id], .ok s)
  | .error e => ([.signStarted swundle.id, .signFailed swundle.id e], .error e)

/-- The body of `sendSwundle`: broadcast every swap sequentially. -/
def sendBody (env : OrchestrationEnv) (swundle : Swundle) : Except String Swundle :=
  (swundle.swaps.mapM env.sendSwap).map (fun swaps => { swundle with swaps := swaps })

/-- `sendSwundle`: dispatch `SEND_STARTED`, send every swap, dispatch
`SEND_SUCCESS` — or dispatch `SEND_FAILED(message)` and re-throw. -/
def sendSwundle (env : OrchestrationEnv) (swundle : Swundle) :
    List Action × Except String Swundle :=
  match sendBody env swundle with
  | .ok s => ([.sendStarted swundle.id, .sendSuccess swundle.id], .ok s)
  | .error e => ([.sendStarted swundle.id, .sendFailed swundle.id e], .error e)

/-- C7.  `initSwundle` always resolves (never re-throws) and on any error of
its body dispatches `INIT_FAILED` carrying the message; `signSwundle` and
`sendSwundle` dispatch `SIGN_FAILED`/`SEND_FAILED` carrying the message and
re-throw the same error to the caller. -/
theorem swundle_failure_semantics :
    (∀ (env : OrchestrationEnv) (wallets : List WalletInfo) (swundle : Swundle),
      (initSwundle env wallets swundle).2.isOk = true)
    ∧ (∀ (env : OrchestrationEnv) (wallets : List WalletInfo) (swundle : Swundle)
        (e : String), initBody env wallets swundle = .error e →
      initSwundle env wallets swundle
        = ([.initStarted swundle.id, .initFailed swundle.id e], .ok none))
    ∧ (∀ (env : OrchestrationEnv) (swundle : Swundle) (e : String),
        signBody env swundle = .error e →
      signSwundle env swundle
        = ([.signStarted swundle.id, .signFailed swundle.id e], .error e))
    ∧ (∀ (env : OrchestrationEnv) (swundle : Swundle) (e : String),
        sendBody env swundle = .error e →
      sendSwundle env swundle
        = ([.sendStarted swundle.id, .sendFailed swundle.id e], .error e)) := by
  refine ⟨?_, ?_, ?_, ?_⟩
  · intro env wallets swundle
    unfold initSwundle
    cases initBody env wallets swundle <;> simp [Except.isOk, Except.toBool]
  · intro env wallets swundle e h
    unfold initSwundle
    rw [h]
  · intro env swundle e h
    unfold signSwundle
    rw [h]
  · intro env swundle e h
    unfold sendSwundle
    rw [h]

/-- A witness environment whose market-info refresh and signing/sending
steps fail. -/
def witOrchEnv : OrchestrationEnv :=
  { updateMarketInfo := fun _ => .error "boom",
    checkSufficientDeposit := Except.ok,
    createOrder := Except.ok,
    createSwundleTxs := Except.ok,
    signSwap := fun _ => .error "nope",
    sendSwap := fun _ => .error "fail" }

theorem swundle_failure_semantics_witness :
    (initSwundle witOrchEnv witWallets witSwundle).2.isOk = true
    ∧ initSwundle witOrchEnv witWallets witSwundle
      = ([.initStarted "sw1", .initFailed "sw1" "boom"], .ok none)
    ∧ signSwundle witOrchEnv witSwundle
      = ([.signStarted "sw1", .signFailed "sw1" "nope"], .error "nope")
    ∧ sendSwundle witOrchEnv witSwundle
      = ([.sendStarted "sw1", .sendFailed "sw1" "fail"], .error "fail") :=
  ⟨swundle_failure_semantics.1 witOrchEnv witWallets witSwundle,
    swundle_failure_semantics.2.1 witOrchEnv witWallets witSwundle "boom" rfl,
    swundle_failure_semantics.2.2.1 witOrchEnv witSwundle "nope" rfl,
    swundle_failure_semantics.2.2.2 witOrchEnv witSwundle "fail" rfl⟩

end SwundleActions

namespace Restore

/-- Order slice carried by restored swaps (`order.created` feeds the
synthetic swundle's creation date). -/
structure RestoredOrder where
  deposit : String
  created : Option Nat
  deriving DecidableEq

/-- A restored transaction record; only its id matters here. -/
structure RestoredTx where
  id : Option String
  deriving DecidableEq

/-- A restored swap record (the union of the fields the V1 and V2 shapes
produce). -/
structure RSwap where
  id : Option String
  sendWalletId : String
  sendSymbol : String
  sendUnits : ℤ
  receiveWalletId : String
  receiveSymbol : String
  fee : ℤ
  order : Option RestoredOrder
  rate : ℤ
  tx : Option RestoredTx
  txId : Option String
  deriving DecidableEq

/-- One `{walletId, symbol, unit, fee, order, rate, txHash}` entry of a V1
send-group's `list`. -/
structure ReceiveEntry where
  walletId : String
  symbol : String
  unit : ℤ
  fee : ℤ
  order : Option RestoredOrder
  rate : ℤ
  txHash : String
  deriving DecidableEq

/-- One V1 send-group. -/
structure SendGroup where
  walletId : String
  symbol : String
  list : List ReceiveEntry
  deriving DecidableEq

/-- A restored swundle record (V2's optional `swundle` map). -/
structure SwundleRec where
  id : String
  deriving DecidableEq

/-- A V2-shaped payload: `swap` (null or a collection), optional `tx` map,
optional `swundle` map. -/
structure V2State where
  swap : Option (List RSwap)
  tx : Option (List RestoredTx)
  swundle : Option (List SwundleRec)
  deriving DecidableEq

/-- The serialized state handed to `restoreSwundles`: a V2-shaped object, a
V1 array of send-groups, or anything else (restored as nothing). -/
inductive RestorePayload where
  | v2 (state : V2State)
  | v1 (sends : List SendGroup)
  | invalid
  deriving DecidableEq

/-- `validateSwundleV2`: the state is an object whose `swap` member is
non-null and an array or object. -/
def validateSwundleV2 (state : V2State) : Bool := state.swap.isSome

/-- The per-receive check of `validateSwundleV1`.  `receiveSymbols` is
declared inside the `every` callback in the source, so it is freshly empty
for every entry and the duplicate-receive-symbol check can never fire; it is
transcribed verbatim. -/
def validReceive (receive : ReceiveEntry) : Bool :=
  let receiveSymbols : List String := []
  if receive.symbol = "" then false
  else if receiveSymbols.contains receive.symbol then false
  else if receive.unit ≤ 0 then false
  else if receive.order.isNone then false
  else true

/-- The `swundle.every` loop of `validateSwundleV1`, accumulating the
send symbols seen so far. -/
def validateV1Go (sendSymbols : List String) : List SendGroup → Bool
  | [] => true
  | send :: rest =>
    if send.symbol = "" then false
    else if sendSymbols.contains send.symbol then false
    else if !send.list.all validReceive then false
    else validateV1Go (sendSymbols ++ [send.symbol]) rest

/-- `validateSwundleV1`. -/
def validateSwundleV1 (sends : List SendGroup) : Bool := validateV1Go [] sends

/-- The V1 `state.reduce`: expand every receive entry of every send-group
into one swap, in payload order (no deduplication). -/
def v1SwapList (sends : List SendGroup) : List RSwap :=
  sends.flatMap (fun send => send.list.map (fun receive =>
    { id := none,
      sendWalletId := send.walletId,
      sendSymbol := send.symbol,
      sendUnits := receive.unit,
      receiveWalletId := receive.walletId,
      receiveSymbol := receive.symbol,
      fee := receive.fee,
      order := receive.order,
      rate := receive.rate,
      tx := some ⟨some receive.txHash⟩,
      txId := none }))

/-- The V2 `swapList.forEach`: give each present transaction lacking a
(truthy) id a fresh uuid, record it on the swap's `txId`, and dispatch
`txRestored` for every present transaction.  Returns the (possibly updated)
swap list, the dispatched transactions, and the number of uuids consumed. -/
def restoreV2Go (fresh : Nat → String) (k : Nat) :
    List RSwap → List RSwap × List RestoredTx × Nat
  | [] => ([], [], k)
  | swap :: rest =>
    match swap.tx with
    | some t =>
      if truthyStr t.id then
        let r := restoreV2Go fresh k rest
        (swap :: r.1, t :: r.2.1, r.2.2)
      else
        let newId := fresh k
        let t2 : RestoredTx := ⟨some newId⟩
        let swap2 := { swap with tx := some t2, txId := some newId }
        let r := restoreV2Go fresh (k + 1) rest
        (swap2 :: r.1, t2 :: r.2.1, r.2.2)
    | none =>
      let r := restoreV2Go fresh k rest
      (swap :: r.1, r.2.1, r.2.2)

/-- The synthetic swundle dispatched by `swundleAdded` when the restored
swaps have no restored swundle; `swundleAdded` maps each swap object to its
`id` field. -/
structure SyntheticSwundle where
  id : String
  createdDate : Nat
  swaps : List (Option String)
  deriving DecidableEq

/-- Everything `restoreSwundles` dispatches. -/
structure RestoreResult where
  txsRestored : Option (List RestoredTx)
  txDispatches : List RestoredTx
  swapsRestored : Option (List RSwap)
  swundlesRestored : Option (List SwundleRec)
  syntheticSwundle : Option SyntheticSwundle
  deriving DecidableEq

/-- No dispatches (neither validator matched, or `swap` was null). -/
def emptyRestore : RestoreResult := ⟨none, [], none, none, none⟩

/-- `restoreSwundles` (`app/actions/swundle.js` lines 224–275).  `fresh n`
is the `n`-th uuid generated during the call; `now` is `Date.now()`.  The
synthetic swundle's `createdDate` is
`((swapList[0] || {}).order || {}).created || Date.now()` — the first
restored swap's order-creation date (`0` being falsy), else the current
time. -/
def restoreSwundles (fresh : Nat → String) (now : Nat) (payload : RestorePayload) :
    RestoreResult :=
  match payload with
  | .v2 state =>
    if validateSwundleV2 state then
      match state.swap with
      | some swapListRaw =>
        let r := restoreV2Go fresh 0 swapListRaw
        let swapList := r.1
        let synthetic :=
          if state.swundle.isSome then none
          else some
            { id := fresh r.2.2,
              createdDate :=
                match (swapList.head?.bind (·.order)).bind (·.created) with
                | some c => if c = 0 then now else c
                | none => now,
              swaps := swapList.map (·.id) }
        { txsRestored := state.tx, txDispatches := r.2.1,
          swapsRestored := some swapList, swundlesRestored := state.swundle,
          syntheticSwundle := synthetic }
      | none => emptyRestore
    else emptyRestore
  | .v1 sends =>
    if validateSwundleV1 sends then
      let swapList := v1SwapList sends
      { txsRestored := none, txDispatches := [],
        swapsRestored := some swapList, swundlesRestored := none,
        syntheticSwundle := some
          { id := fresh 0,
            createdDate :=
              match (swapList.head?.bind (·.order)).bind (·.created) with
              | some c => if c = 0 then now else c
              | none => now,
            swaps := swapList.map (·.id) } }
    else emptyRestore
  | .invalid => emptyRestore

/-- The earliest order-creation date available among a list of restored
swaps (what C8 claims the synthetic swundle uses). -/
def earliestCreated (l : List RSwap) : Option Nat :=
  (l.filterMap (fun sw => sw.order.bind (·.created))).min?

/-- The date the source actually uses: the FIRST restored swap's
order-creation date when truthy, else the current time. -/
def firstOrderCreatedOrNow (swapList : List RSwap) (now : Nat) : Nat :=
  match (swapList.head?.bind (·.order)).bind (·.created) with
  | some c => if c = 0 then now else c
  | none => now

/-- Deterministic uuid supply for concrete runs. -/
def cFresh : Nat → String := fun n => "u" ++ toString n

/-- A restored swap with a given id and order-creation date. -/
def cRSwap (id : String) (created : Nat) : RSwap :=
  { id := some id, sendWalletId := "w1", sendSymbol := "BTC", sendUnits := 1,
    receiveWalletId := "w2", receiveSymbol := "ETH", fee := 0,
    order := some ⟨"dep", some created⟩, rate := 2, tx := none, txId := none }

/-- A V2 payload whose first restored swap was created later (10) than its
second (5), with no restored swundle. -/
def cV2 : V2State :=
  { swap := some [cRSwap "s1" 10, cRSwap "s2" 5], tx := none, swundle := none }

/-- C8 counterexample: the synthetic swundle created for `cV2` carries
`createdDate = 10`, the FIRST swap's order date, while the earliest
order-creation date among the restored swaps is 5. -/
theorem restoreSwundles_createdDate_counterexample :
    (restoreSwundles cFresh 100 (.v2 cV2)).syntheticSwundle.map (·.createdDate) = some 10
    ∧ earliestCreated ((restoreSwundles cFresh 100 (.v2 cV2)).swapsRestored.getD [])
      = some 5
    ∧ ¬((10 : Nat) = 5) :=
  ⟨rfl, rfl, by decide⟩

/-- C8 (amended).  Whenever `restoreSwundles` creates a synthetic swundle,
its `createdDate` is the first restored swap's order-creation date when
present and truthy, and the current time otherwise. -/
theorem restoreSwundles_createdDate (fresh : Nat → String) (now : Nat)
    (payload : RestorePayload) (sw : SyntheticSwundle)
    (h : (restoreSwundles fresh now payload).syntheticSwundle = some sw) :
    ∃ l, (restoreSwundles fresh now payload).swapsRestored = some l
      ∧ sw.createdDate = firstOrderCreatedOrNow l now := by
  unfold restoreSwundles at h ⊢
  cases payload with
  | invalid => exact absurd h (by simp [emptyRestore])
  | v1 sends =>
    dsimp only at h ⊢
    by_cases hv : validateSwundleV1 sends = true
    · rw [if_pos hv] at h ⊢
      dsimp only at h ⊢
      rw [Option.some.injEq] at h
      exact ⟨v1SwapList sends, rfl, by rw [← h, firstOrderCreatedOrNow]⟩
    · rw [if_neg hv] at h
      exact absurd h (by simp [emptyRestore])
  | v2 state =>
    obtain ⟨oswap, otx, oswundle⟩ := state
    dsimp only at h ⊢
    by_cases hv : validateSwundleV2 ⟨oswap, otx, oswundle⟩ = true
    · rw [if_pos hv] at h ⊢
      cases oswap with
      | none => exact absurd hv (by simp [validateSwundleV2])
      | some swapListRaw =>
        dsimp only at h ⊢
        by_cases hsw : oswundle.isSome = true
        · rw [if_pos hsw] at h
          exact absurd h (by simp)
        · rw [if_neg hsw] at h
          rw [Option.some.injEq] at h
          refine ⟨(restoreV2Go fresh 0 swapListRaw).1, rfl, ?_⟩
          rw [← h, firstOrderCreatedOrNow]
    · rw [if_neg hv] at h
      exact absurd h (by simp [emptyRestore])

theorem restoreSwundles_createdDate_witness :
    ∃ l, (restoreSwundles cFresh 100 (.v2 cV2)).swapsRestored = some l
      ∧ (10 : Nat) = firstOrderCreatedOrNow l 100 :=
  restoreSwundles_createdDate cFresh 100 (.v2 cV2)
    ⟨"u0", 10, [some "s1", some "s2"]⟩ rfl

/-- A V1 payload with one send-group whose two receive entries share the
receive symbol `ETH`. -/
def cV1 : List SendGroup :=
  [⟨"w1", "BTC",
    [⟨"rw1", "ETH", 1, 0, some ⟨"d1", some 3⟩, 2, "h1"⟩,
     ⟨"rw2", "ETH", 2, 0, some ⟨"d2", some 4⟩, 2, "h2"⟩]⟩]

/-- C9 counterexample: the duplicate-receive-symbol payload is accepted and
BOTH entries survive restoration as swaps — the duplicates are not
dropped. -/
theorem restoreSwundles_v1_duplicates_counterexample :
    validateSwundleV1 cV1 = true
    ∧ (restoreSwundles cFresh 100 (.v1 cV1)).swapsRestored.map (·.map (·.receiveSymbol))
      = some ["ETH", "ETH"]
    ∧ ¬(["ETH", "ETH"] : List String).Nodup :=
  ⟨rfl, rfl, by decide⟩

/-- The conditions `validateSwundleV1` actually enforces: distinct non-empty
send symbols, and per receive entry a non-empty symbol, a positive unit and
a present order — nothing about duplicate receive symbols. -/
def v1Acceptable (sends : List SendGroup) : Prop :=
  (sends.map (·.symbol)).Nodup
  ∧ ∀ send ∈ sends, send.symbol ≠ ""
    ∧ ∀ receive ∈ send.list,
      receive.symbol ≠ "" ∧ 0 < receive.unit ∧ receive.order.isSome = true

theorem validateV1Go_true (sends : List SendGroup) :
    ∀ acc : List String,
      (∀ send ∈ sends, send.symbol ∉ acc) →
      (sends.map (·.symbol)).Nodup →
      (∀ send ∈ sends, send.symbol ≠ ""
        ∧ ∀ receive ∈ send.list,
          receive.symbol ≠ "" ∧ 0 < receive.unit ∧ receive.order.isSome = true) →
      validateV1Go acc sends = true := by
  induction sends with
  | nil => intro acc _ _ _; rfl
  | cons send rest ih =>
    intro acc hacc hnd hconds
    obtain ⟨hsym, hrecv⟩ := hconds send (List.mem_cons_self _ _)
    simp only [List.map_cons, List.nodup_cons] at hnd
    have hcont : ¬(acc.contains send.symbol = true) := by
      simpa using hacc send (List.mem_cons_self _ _)
    have hall : send.list.all validReceive = true := by
      rw [List.all_eq_true]
      intro receive hr
      obtain ⟨h1, h2, h3⟩ := hrecv receive hr
      have hisnone : ¬(receive.order.isNone = true) := by
        rw [Option.isNone_iff_eq_none]
        intro hc
        rw [hc] at h3
        exact absurd h3 (by simp)
      unfold validReceive
      rw [if_neg h1, if_neg (by simp), if_neg (by omega), if_neg hisnone]
    unfold validateV1Go
    rw [if_neg hsym, if_neg hcont, if_neg (by simp [hall])]
    refine ih (acc ++ [send.symbol]) ?_ hnd.2 ?_
    · intro s2 hs2
      rw [List.mem_append, List.mem_singleton]
      rintro (hin | heq)
      · exact hacc s2 (List.mem_cons_of_mem _ hs2) hin
      · exact hnd.1 (heq ▸ List.mem_map.mpr ⟨s2, hs2, rfl⟩)
    · intro s2 hs2
      exact hconds s2 (List.mem_cons_of_mem _ hs2)

/-- C9 (amended).  `validateSwundleV1` accepts every payload satisfying the
listed conditions regardless of duplicate receive symbols; restoration of a
valid V1 payload expands every receive entry, duplicates included, into
exactly one swap, preserving the receive symbols in order. -/
theorem validateSwundleV1_keeps_duplicates :
    (∀ sends : List SendGroup, v1Acceptable sends → validateSwundleV1 sends = true)
    ∧ (∀ sends : List SendGroup,
      (v1SwapList sends).map (·.receiveSymbol)
        = sends.flatMap (fun send => send.list.map (·.symbol)))
    ∧ (∀ (fresh : Nat → String) (now : Nat) (sends : List SendGroup),
      validateSwundleV1 sends = true →
      (restoreSwundles fresh now (.v1 sends)).swapsRestored = some (v1SwapList sends)) := by
  refine ⟨?_, ?_, ?_⟩
  · intro sends ⟨hnd, hconds⟩
    exact validateV1Go_true sends [] (by simp) hnd hconds
  · intro sends
    unfold v1SwapList
    rw [List.map_flatMap]
    congr 1
    funext send
    rw [List.map_map]
    rfl
  · intro fresh now sends hv
    unfold restoreSwundles
    dsimp only
    rw [if_pos hv]

theorem validateSwundleV1_keeps_duplicates_witness :
    validateSwundleV1 cV1 = true
    ∧ (restoreSwundles cFresh 100 (.v1 cV1)).swapsRestored = some (v1SwapList cV1) :=
  ⟨validateSwundleV1_keeps_duplicates.1 cV1 (by unfold v1Acceptable; decide),
    validateSwundleV1_keeps_duplicates.2.2 cFresh 100 cV1 rfl⟩

end Restore
